import Mathlib

/-!
Verification of the EvoSwarm evolutionary population manager and execution
scheduler (backend/src/services/evolution-engine.ts and
backend/src/services/agent-executor.ts) against its natural-language
specification.

Modelling conventions.
* JavaScript numbers are idealised as exact arithmetic: real numbers (`ℝ`)
  where the code applies the transcendental `Math.tanh`, and rationals (`ℚ`)
  everywhere else, so that the model stays executable.  Floating-point
  rounding and `NaN` are outside the model.
* `Math.random()` draws are supplied as explicit oracle inputs (rational
  streams), one stream per syntactic call site, indexed by the iteration in
  which the call is made.  A draw produced by the runtime always lies in
  `[0, 1)`; theorems that need this state it as a hypothesis.
* Database writes are modelled as the list of rows the code inserts, and the
  generations table as an explicit list of rows that the writes transform.
-/

namespace EvoSwarm

/-! ## Fitness evaluator (evolution-engine.ts lines 12-57), over `ℝ` -/

/-- Input record of `calculateFitness` (evolution-engine.ts lines 33-38):
the four per-period metric fields read from an agent row. -/
structure FitnessInput where
  profit_period : ℝ
  win_rate_period : ℝ
  max_drawdown_period : ℝ
  trade_count_period : ℝ

/-- The `FITNESS_WEIGHTS` constant (evolution-engine.ts lines 13-19). -/
structure FitnessWeights where
  profit : ℝ
  sharpe : ℝ
  winRate : ℝ
  drawdownPenalty : ℝ
  overtradingPenalty : ℝ

/-- evolution-engine.ts lines 13-19. -/
noncomputable def FITNESS_WEIGHTS : FitnessWeights :=
  { profit := 0.4
    sharpe := 0.3
    winRate := 0.2
    drawdownPenalty := -0.05
    overtradingPenalty := -0.05 }

/-- `calculateFitness` (evolution-engine.ts lines 33-57).  `Math.tanh` is
`Real.tanh`, `Math.min`/`Math.max` are `min`/`max`; the ternary
`normalizedTrades > 0.8 ? normalizedTrades : 0` is the `if` below. -/
noncomputable def calculateFitness (agent : FitnessInput) : ℝ :=
  let normalizedProfit := Real.tanh (agent.profit_period / 1000)
  let normalizedWinRate := agent.win_rate_period
  let normalizedDrawdown := min (agent.max_drawdown_period / 50) 1
  let normalizedTrades := min (agent.trade_count_period / 100) 1
  let sharpeProxy := normalizedProfit * normalizedWinRate
  let fitness :=
    FITNESS_WEIGHTS.profit * normalizedProfit +
    FITNESS_WEIGHTS.sharpe * sharpeProxy +
    FITNESS_WEIGHTS.winRate * normalizedWinRate +
    FITNESS_WEIGHTS.drawdownPenalty * normalizedDrawdown +
    FITNESS_WEIGHTS.overtradingPenalty *
      (if normalizedTrades > 0.8 then normalizedTrades else 0)
  max 0 (min 100 ((fitness + 1) * 50))

/-- Written from the spec's words (spec §4.1), for comparison with
`calculateFitness`: the raw weighted score
`0.4*profit_norm + 0.3*(profit_norm*winRate) + 0.2*winRate
 - 0.05*drawdown_norm - 0.05*overtrading_penalty`, where the overtrading
penalty is the trade-count-normalised value gated at the 0.8 threshold. -/
noncomputable def specRawScore (agent : FitnessInput) : ℝ :=
  0.4 * Real.tanh (agent.profit_period / 1000) +
  0.3 * (Real.tanh (agent.profit_period / 1000) * agent.win_rate_period) +
  0.2 * agent.win_rate_period -
  0.05 * min (agent.max_drawdown_period / 50) 1 -
  0.05 * (if min (agent.trade_count_period / 100) 1 > 0.8
          then min (agent.trade_count_period / 100) 1 else 0)

/-- Written from the spec's words: `clamp(x, lo, hi)`. -/
noncomputable def specClamp (x lo hi : ℝ) : ℝ := max lo (min hi x)

/-! ## Scheduler-side metrics update (agent-executor.ts lines 147-195), over `ℝ` -/

/-- The metric fields of an agent row that `updateAgentMetrics` reads and
writes (agent-executor.ts lines 156-181).  The `|| 0` null-guards of the
source are identities here since every field is a number in the model. -/
structure AgentMetrics where
  profit_all_time : ℝ
  profit_period : ℝ
  trade_count_period : ℝ
  win_rate_period : ℝ
  max_drawdown_period : ℝ
  fitness_score : ℝ

/-- The pure computation inside `updateAgentMetrics` (agent-executor.ts
lines 156-181): fold one realised PnL delta into the metric fields and
recompute the fitness score via `calculateFitness`. -/
noncomputable def updateAgentMetrics (agent : AgentMetrics) (pnl : ℝ) : AgentMetrics :=
  let newProfitAllTime := agent.profit_all_time + pnl
  let newProfitPeriod := agent.profit_period + pnl
  let newTradeCount := agent.trade_count_period + 1
  let newWinRate :=
    if pnl > 0 then (agent.win_rate_period * (newTradeCount - 1) + 1) / newTradeCount
    else (agent.win_rate_period * (newTradeCount - 1)) / newTradeCount
  let newMaxDrawdown := max agent.max_drawdown_period (if pnl < 0 then |pnl| else 0)
  let fitnessScore := calculateFitness
    { profit_period := newProfitPeriod
      win_rate_period := newWinRate
      max_drawdown_period := newMaxDrawdown
      trade_count_period := newTradeCount }
  { profit_all_time := newProfitAllTime
    profit_period := newProfitPeriod
    trade_count_period := newTradeCount
    win_rate_period := newWinRate
    max_drawdown_period := newMaxDrawdown
    fitness_score := fitnessScore }

/-- The population manager's rescoring of one agent row
(evolution-engine.ts lines 171-174): `calculateFitness(agent)` applied to
the same four metric fields. -/
noncomputable def rescoreFitness (agent : AgentMetrics) : ℝ :=
  calculateFitness
    { profit_period := agent.profit_period
      win_rate_period := agent.win_rate_period
      max_drawdown_period := agent.max_drawdown_period
      trade_count_period := agent.trade_count_period }

/-! ## Agent executor (agent-executor.ts), executable model over `ℚ`

The decision/execution pipeline of `runAgentCycle` is modelled over `ℚ` so
that concrete runs can be evaluated by the kernel.  The real-valued
`calculateFitness` (which needs `tanh`) enters only through
`updateAgentMetrics`; the executable model therefore takes the fitness
function as an explicit parameter `fitness`, exactly at the one place the
source calls `calculateFitness` (agent-executor.ts line 164).  The claims
settled against this model do not depend on the fitness value. -/

/-- The `action` field of a `StrategyDecision` (agent-executor.ts line 8). -/
inductive TradeAction where
  | buy
  | sell
  | hold
deriving DecidableEq

/-- `StrategyDecision` (agent-executor.ts lines 7-13).  Optional fields are
`Option`s, matching the `?` fields of the TypeScript interface. -/
structure StrategyDecision where
  action : TradeAction
  symbol : Option String
  qty : Option ℚ
  confidence : ℚ
  reasoning : String
deriving DecidableEq

/-- `MarketState` (agent-executor.ts lines 15-19): string-keyed records of
numbers, as association lists. -/
structure MarketState where
  prices : List (String × ℚ)
  portfolio : List (String × ℚ)
  indicators : List (String × ℚ)
deriving DecidableEq

/-- JavaScript `record[key]`: the value at the first matching key, or
`undefined` (`none`). -/
def jsLookup (record : List (String × ℚ)) (key : String) : Option ℚ :=
  (record.find? (fun p => p.1 = key)).map (fun p => p.2)

/-- JavaScript `v || d` on an optional number: `d` when `v` is `undefined`
or `0` (both falsy), otherwise `v`. -/
def jsOr (v : Option ℚ) (d : ℚ) : ℚ :=
  match v with
  | none => d
  | some x => if x = 0 then d else x

/-- Transaction `status` values (types/index.ts line 8). -/
inductive TxStatus where
  | pending
  | simulated
  | submitted
  | filled
  | failed
  | reverted
deriving DecidableEq

/-- The transaction row inserted by `executeDecision` (agent-executor.ts
lines 115-131).  The random hex `tx_hash` and the wall-clock
`block_number` are cosmetic and not modelled; `gas_used` is the constant
150000. -/
structure TransactionRow where
  agent_id : String
  type : TradeAction
  token_in : String
  token_out : String
  amount_in : ℚ
  amount_out : ℚ
  price_entry : ℚ
  fees : ℚ
  pnl_realized : ℚ
  status : TxStatus
  gas_used : ℚ
deriving DecidableEq

/-- The result object of `executeDecision` (agent-executor.ts line 91):
`{ success, txHash?, pnl?, error? }`.  `txHash` is tracked only as
presence, since the hash string itself is cosmetic randomness. -/
structure ExecResult where
  success : Bool
  hasTxHash : Bool
  pnl : Option ℚ
  error : Option String
deriving DecidableEq

/-- The two `Math.random()` draws `executeDecision` makes on the non-hold
path, in source order: the slippage draw (line 98) and the failure draw
(line 102). -/
structure ExecRand where
  slip : ℚ
  failRoll : ℚ

/-- `executeDecision` (agent-executor.ts lines 87-144), returning the
result object together with the list of transaction rows inserted.  On
`hold` it returns success with no write; on the probabilistic failure
branch (`Math.random() > 0.95`) it returns `success: false` with an error
message and — notably — inserts nothing. -/
def executeDecision (agentId : String) (decision : StrategyDecision)
    (state : MarketState) (r : ExecRand) : ExecResult × List TransactionRow :=
  if decision.action = .hold then
    ({ success := true, hasTxHash := false, pnl := none, error := none }, [])
  else
    let mockPrice := jsOr (jsLookup state.prices "ETH") 2000
    let mockSlippage := r.slip * 0.02
    let mockGas := 0.001 * mockPrice
    if r.failRoll > 0.95 then
      ({ success := false, hasTxHash := false, pnl := none,
         error := some "Transaction reverted: insufficient liquidity" }, [])
    else
      let executedPrice :=
        if decision.action = .buy then mockPrice * (1 + mockSlippage)
        else mockPrice * (1 - mockSlippage)
      let mockPnl :=
        if decision.action = .sell then
          jsOr decision.qty 0 * (executedPrice - mockPrice) - mockGas
        else -mockGas
      let tx : TransactionRow :=
        { agent_id := agentId
          type := decision.action
          token_in := if decision.action = .buy then "USDC" else "ETH"
          token_out := if decision.action = .buy then "ETH" else "USDC"
          amount_in := jsOr decision.qty 0
          amount_out := jsOr decision.qty 0 * executedPrice
          price_entry := executedPrice
          fees := mockGas
          pnl_realized := mockPnl
          status := .filled
          gas_used := 150000 }
      ({ success := true, hasTxHash := true, pnl := some mockPnl, error := none }, [tx])

/-- Executable (`ℚ`) counterpart of the agent metric fields, for the
executor model. -/
structure AgentMetricsQ where
  id : String
  profit_all_time : ℚ
  profit_period : ℚ
  trade_count_period : ℚ
  win_rate_period : ℚ
  max_drawdown_period : ℚ
  fitness_score : ℚ
deriving DecidableEq

/-- `updateAgentMetrics` (agent-executor.ts lines 147-195) over `ℚ`, with
the `calculateFitness` call site abstracted as the parameter `fitness`
(see the section comment). -/
def updateAgentMetricsQ (fitness : ℚ → ℚ → ℚ → ℚ → ℚ)
    (agent : AgentMetricsQ) (pnl : ℚ) : AgentMetricsQ :=
  let newProfitAllTime := agent.profit_all_time + pnl
  let newProfitPeriod := agent.profit_period + pnl
  let newTradeCount := agent.trade_count_period + 1
  let newWinRate :=
    if pnl > 0 then (agent.win_rate_period * (newTradeCount - 1) + 1) / newTradeCount
    else (agent.win_rate_period * (newTradeCount - 1)) / newTradeCount
  let newMaxDrawdown := max agent.max_drawdown_period (if pnl < 0 then |pnl| else 0)
  { agent with
    profit_all_time := newProfitAllTime
    profit_period := newProfitPeriod
    trade_count_period := newTradeCount
    win_rate_period := newWinRate
    max_drawdown_period := newMaxDrawdown
    fitness_score := fitness newProfitPeriod newWinRate newMaxDrawdown newTradeCount }

/-- The `simulated_outcome` object of an execution-log row
(agent-executor.ts lines 223-227). -/
structure SimulatedOutcome where
  expectedPnl : ℚ
  gasEstimate : ℚ
  slippage : ℚ
deriving DecidableEq

/-- The execution-log row inserted at every cycle (agent-executor.ts lines
219-229).  `executed` is set to `decision.action !== 'hold'` — the flag
records whether the action is non-hold, not whether execution happened. -/
structure ExecutionLogRow where
  agent_id : String
  decision : StrategyDecision
  simulated_outcome : Option SimulatedOutcome
  executed : Bool
deriving DecidableEq

/-- Steps 3 and 4 of `runAgentCycle` (agent-executor.ts lines 218-250):
insert the decision log row, then execute only when the decision is
non-hold and its confidence exceeds 0.6, and fold the PnL into the metrics
only when the execution succeeded with a defined PnL.  The strategy run
(step 2) produced `decision`; market-state sampling and the heartbeat
update are not modelled.  Returns (log rows, transaction rows, agent after
the cycle). -/
def runAgentCycleCore (fitness : ℚ → ℚ → ℚ → ℚ → ℚ) (agent : AgentMetricsQ)
    (decision : StrategyDecision) (state : MarketState) (r : ExecRand) :
    List ExecutionLogRow × List TransactionRow × AgentMetricsQ :=
  let logRow : ExecutionLogRow :=
    { agent_id := agent.id
      decision := decision
      simulated_outcome :=
        if decision.action ≠ .hold then
          some { expectedPnl := jsOr decision.qty 0 * 0.01
                 gasEstimate := 150000
                 slippage := 0.5 }
        else none
      executed := decision.action ≠ .hold }
  if decision.action ≠ .hold ∧ decision.confidence > 0.6 then
    let res := executeDecision agent.id decision state r
    let agent' :=
      if res.1.success ∧ res.1.pnl.isSome then
        updateAgentMetricsQ fitness agent (res.1.pnl.getD 0)
      else agent
    ([logRow], res.2, agent')
  else
    ([logRow], [], agent)

/-! ### Concrete fixtures for executor runs -/

/-- A market-state snapshot as built by `runAgentCycle` step 1
(agent-executor.ts lines 201-205), with the price draws fixed. -/
def sampleState : MarketState :=
  { prices := [("ETH", 2000), ("USDC", 1)]
    portfolio := [("ETH", 1), ("USDC", 1000)]
    indicators := [] }

/-- An agent row with the seed metric values of a freshly bred agent. -/
def sampleAgent : AgentMetricsQ :=
  { id := "agent-1"
    profit_all_time := 0
    profit_period := 0
    trade_count_period := 0
    win_rate_period := 0.5
    max_drawdown_period := 0
    fitness_score := 50 }

/-- A high-confidence buy decision, as `momentumStrategy` emits for a
momentum draw of 0.9 against threshold 0.5 (agent-executor.ts lines 29-36). -/
def confidentBuyDecision : StrategyDecision :=
  { action := .buy
    symbol := some "ETH/USDC"
    qty := some 100
    confidence := 0.9
    reasoning := "Momentum 0.90 above threshold 0.5" }

/-- A sub-threshold sell decision, as `momentumStrategy` emits for a
momentum draw of -0.5 against threshold 0.3 (agent-executor.ts lines
37-44): non-hold, confidence 0.5 ≤ 0.6. -/
def subThresholdSellDecision : StrategyDecision :=
  { action := .sell
    symbol := some "ETH/USDC"
    qty := some 0.1
    confidence := 0.5
    reasoning := "Momentum -0.50 below threshold -0.3" }

/-- Random draws that take the probabilistic failure branch:
`failRoll = 0.96 > 0.95` (agent-executor.ts line 102). -/
def failingRand : ExecRand := { slip := 0.5, failRoll := 0.96 }

/-- A fitness function instantiation for concrete runs (the claims settled
against the executable executor model do not depend on it). -/
def constFitness : ℚ → ℚ → ℚ → ℚ → ℚ := fun _ _ _ _ => 50

/-! ## Configuration (evolution-engine.ts lines 5-10, agent-executor.ts
lines 269-282, evolution-engine.ts lines 323-335) -/

/-- The module-level `config` object (evolution-engine.ts lines 6-10). -/
structure EvolutionConfig where
  mutationRate : ℚ
  elitePercentage : ℚ
  eliminationPercentage : ℚ
deriving DecidableEq

/-- The three fraction environment variables, each `none` when unset or
empty and otherwise the parsed numeric value (strings that parse to `NaN`
are outside the rational model). -/
structure FractionEnv where
  MUTATION_RATE : Option ℚ
  ELITE_PERCENTAGE : Option ℚ
  ELIMINATION_PERCENTAGE : Option ℚ

/-- Construction of `config` (evolution-engine.ts lines 6-10):
`parseFloat(process.env.X || 'default')`.  The parsed value is adopted
verbatim — there is no validation and no clamping. -/
def configOfEnv (env : FractionEnv) : EvolutionConfig :=
  { mutationRate := env.MUTATION_RATE.getD 0.15
    elitePercentage := env.ELITE_PERCENTAGE.getD 0.2
    eliminationPercentage := env.ELIMINATION_PERCENTAGE.getD 0.3 }

/-- The `config` in effect with no environment overrides. -/
def defaultConfig : EvolutionConfig := configOfEnv ⟨none, none, none⟩

/-- The two store credentials read by `startAgentExecutor`
(agent-executor.ts lines 271-272), after the `|| ''` defaulting. -/
structure ExecutorEnv where
  supabaseUrl : String
  supabaseServiceKey : String

/-- `startAgentExecutor` (agent-executor.ts lines 269-282): the polling
loop starts iff both store credentials are non-empty; nothing else —
in particular no configuration fraction — is inspected. -/
def startAgentExecutor (env : ExecutorEnv) : Bool :=
  if env.supabaseUrl = "" ∨ env.supabaseServiceKey = "" then false else true

/-- `scheduleEvolution` (evolution-engine.ts lines 324-335): parses the
interval with default 24 hours and unconditionally registers the timer.
Returns (interval hours, whether the evolution timer was scheduled). -/
def scheduleEvolution (envIntervalHours : Option ℕ) : ℕ × Bool :=
  (envIntervalHours.getD 24, true)

/-! ## DNA, crossover and mutation (evolution-engine.ts lines 21-106) -/

/-- A DNA field value.  `typeof x === 'number'` separates numeric fields
from the string/boolean/undefined values an `AgentDNA` record may also
hold (types/index.ts lines 17-31); the latter are collapsed to `other`
since breed/mutate never touch them. -/
inductive DnaValue where
  | num (q : ℚ)
  | other
deriving DecidableEq

/-- `AgentDNA`: a string-keyed record, as an association list in key
insertion order (JavaScript objects have unique keys; `Object.keys`
iterates insertion order). -/
abbrev AgentDNA := List (String × DnaValue)

/-- JavaScript `dna[key]`: first occurrence, or `undefined`. -/
def dnaLookup (dna : AgentDNA) (key : String) : Option DnaValue :=
  (dna.find? (fun p => p.1 = key)).map (fun p => p.2)

/-- JavaScript `dna[key] = v`: overwrite in place when the key is present,
append otherwise. -/
def dnaSet (dna : AgentDNA) (key : String) (v : DnaValue) : AgentDNA :=
  if dna.any (fun p => p.1 = key) then
    dna.map (fun p => if p.1 = key then (key, v) else p)
  else dna ++ [(key, v)]

/-- One entry of `PARAM_BOUNDS` (evolution-engine.ts line 22); the source
names the fields `min`/`max`. -/
structure ParamBound where
  min : ℚ
  max : ℚ
deriving DecidableEq

/-- `PARAM_BOUNDS` (evolution-engine.ts lines 22-30). -/
def PARAM_BOUNDS : List (String × ParamBound) :=
  [("riskTolerance", ⟨0.05, 0.95⟩),
   ("positionSizePercent", ⟨1, 25⟩),
   ("maxSlippage", ⟨0.1, 5⟩),
   ("momentumWindow", ⟨5, 100⟩),
   ("meanReversionThreshold", ⟨0.5, 3⟩),
   ("stopLossPercent", ⟨1, 20⟩),
   ("takeProfitPercent", ⟨2, 50⟩)]

/-- `PARAM_BOUNDS[param]` (evolution-engine.ts line 97, before the `||`
default). -/
def paramBound? (key : String) : Option ParamBound :=
  (PARAM_BOUNDS.find? (fun p => p.1 = key)).map (fun p => p.2)

/-- `clamp(value, min, max)` (evolution-engine.ts lines 68-70); the bound
arguments are renamed `lo`/`hi` here. -/
def clamp (value lo hi : ℚ) : ℚ := max lo (min hi value)

/-- `gaussianRandom(mean, std)` (evolution-engine.ts lines 60-65) returns
`z * std + mean` where `z = sqrt(-2 ln u1) * cos(2π u2)` is a
standard-normal draw from two uniforms.  `z` is irrational, so it is
supplied directly by the oracle. -/
def gaussianRandom (z mean std : ℚ) : ℚ := z * std + mean

/-- The child's initial DNA (evolution-engine.ts lines 74-78). -/
def defaultChildDna : AgentDNA :=
  [("riskTolerance", .num 0.5), ("positionSizePercent", .num 10), ("maxSlippage", .num 1)]

/-- The crossover loop of `breed` (evolution-engine.ts lines 81-85):
iterate `Object.keys(parent1Dna)`; whenever both parents hold a number at
the key, the child receives one of the two values, chosen by a fresh
`Math.random()` draw (`crossDraw i` for the i-th numeric key). -/
def breedGo (crossDraw : ℕ → ℚ) (parent2Dna : AgentDNA) :
    List (String × DnaValue) → ℕ → AgentDNA → AgentDNA
  | [], _, child => child
  | (key, v) :: rest, i, child =>
    match v, dnaLookup parent2Dna key with
    | .num q1, some (.num q2) =>
        breedGo crossDraw parent2Dna rest (i + 1)
          (dnaSet child key (.num (if crossDraw i > 0.5 then q1 else q2)))
    | _, _ => breedGo crossDraw parent2Dna rest i child

/-- `breed` (evolution-engine.ts lines 73-88). -/
def breed (crossDraw : ℕ → ℚ) (parent1Dna parent2Dna : AgentDNA) : AgentDNA :=
  breedGo crossDraw parent2Dna parent1Dna 0 defaultChildDna

/-- The oracle draws `mutate` consumes per numeric field: the
`Math.random() < config.mutationRate` trigger (`trig`) and the
standard-normal draw behind `gaussianRandom` (`z`), indexed by the number
of numeric fields already visited. -/
structure MutateRand where
  trig : ℕ → ℚ
  z : ℕ → ℚ

/-- The loop of `mutate` (evolution-engine.ts lines 94-103): each numeric
field is, with the trigger draw below `config.mutationRate`, perturbed by
Gaussian noise of standard deviation 10% of its current value and clamped
to its `PARAM_BOUNDS` entry — or to `[value*0.5, value*1.5]` when the
field has no entry. -/
def mutateGo (cfg : EvolutionConfig) (r : MutateRand) :
    List (String × DnaValue) → ℕ → AgentDNA
  | [], _ => []
  | (key, v) :: rest, i =>
    match v with
    | .num currentValue =>
      if r.trig i < cfg.mutationRate then
        (key, .num (clamp
            (currentValue + gaussianRandom (r.z i) 0 (currentValue * 0.1))
            ((paramBound? key).getD ⟨currentValue * 0.5, currentValue * 1.5⟩).min
            ((paramBound? key).getD ⟨currentValue * 0.5, currentValue * 1.5⟩).max)) ::
          mutateGo cfg r rest (i + 1)
      else (key, v) :: mutateGo cfg r rest (i + 1)
    | .other => (key, v) :: mutateGo cfg r rest i

/-- `mutate` (evolution-engine.ts lines 91-106). -/
def mutate (cfg : EvolutionConfig) (r : MutateRand) (dna : AgentDNA) : AgentDNA :=
  mutateGo cfg r dna 0

/-- A parent DNA record holding a `riskTolerance` outside the bound
table's `[0.05, 0.95]` range. -/
def outOfBoundsParent : AgentDNA := [("riskTolerance", .num 2)]

/-- Crossover draws that always pick parent 1 (`draw > 0.5`). -/
def pickParent1 : ℕ → ℚ := fun _ => 1

/-- Mutation draws whose trigger never fires (`1 < mutationRate` is false
for any rate ≤ 1). -/
def neverMutate : MutateRand := { trig := fun _ => 1, z := fun _ => 0 }

/-- Executable check that every numeric field of a DNA record that has a
`PARAM_BOUNDS` entry lies within its bound. -/
def dnaRespectsBounds (dna : AgentDNA) : Bool :=
  dna.all (fun p =>
    match p.2, paramBound? p.1 with
    | .num q, some b => decide (b.min ≤ q ∧ q ≤ b.max)
    | _, _ => true)

/-- A parent DNA record whose bounded fields all respect `PARAM_BOUNDS`
and that also holds an unbounded custom field. -/
def parentA : AgentDNA :=
  [("riskTolerance", .num 0.3), ("momentumWindow", .num 20), ("customParam", .num 4)]

/-- A second in-bounds parent DNA record. -/
def parentB : AgentDNA :=
  [("riskTolerance", .num 0.7), ("momentumWindow", .num 50), ("customParam", .num 6)]

/-! ## Evolution cycle (evolution-engine.ts lines 119-321)

The cycle is modelled over `ℚ`.  The rescoring step (lines 171-174) calls
the real-valued `calculateFitness`; the model takes the scoring function
as the parameter `score : EvoAgent → ℚ`, applied exactly where the source
applies `calculateFitness` — the claims settled against this model depend
only on how scores are compared, not on their values.  The two unbounded
`while` loops (survivor selection, breeding) are given explicit fuel; a
run that exhausts its fuel models a loop still running. -/

/-- Agent `status` values (types/index.ts line 2). -/
inductive AgentStatus where
  | running
  | paused
  | eliminated
  | error
  | offline
deriving DecidableEq

/-- Generation `status` values (types/index.ts line 5). -/
inductive GenerationStatus where
  | active
  | completed
  | failed
deriving DecidableEq

/-- A generations-table row; only the columns the cycle's generation
bookkeeping touches (`id`, `index`, `status`) are modelled — the aggregate
statistics and config snapshot written alongside do not affect any claim. -/
structure GenerationRow where
  id : ℕ
  index : ℕ
  status : GenerationStatus
deriving DecidableEq

/-- The query of evolution-engine.ts lines 148-154: the active generation
of largest index, `null` when none exists. -/
def getActiveGeneration (store : List GenerationRow) : Option GenerationRow :=
  (List.insertionSort (fun a b : GenerationRow => b.index ≤ a.index)
    (store.filter (fun g => g.status = GenerationStatus.active))).head?

/-- The insert of evolution-engine.ts lines 215-228: the new generation
row enters the store with `status: 'active'`. -/
def insertNewGeneration (store : List GenerationRow) (newId newGenIndex : ℕ) :
    List GenerationRow :=
  store ++ [⟨newId, newGenIndex, GenerationStatus.active⟩]

/-- The update of evolution-engine.ts lines 235-244: the old generation
row is marked `completed` (matched by id). -/
def completeOldGeneration (store : List GenerationRow) (oldId : ℕ) :
    List GenerationRow :=
  store.map (fun g =>
    if g.id = oldId then { g with status := GenerationStatus.completed } else g)

/-- Number of rows with `status = active`. -/
def countActive (store : List GenerationRow) : ℕ :=
  (store.filter (fun g => g.status = GenerationStatus.active)).length

/-- The agent-row columns the evolution cycle reads. -/
structure EvoAgent where
  id : String
  fitness_score : ℚ
  dna : AgentDNA
  strategy_type : String
  generation_index : ℕ
deriving DecidableEq

/-- JavaScript `array[Math.floor(q * array.length)]`: out-of-range
indices — possible only for draws outside `[0, 1)` — yield `undefined`. -/
def jsGet {α : Type} (l : List α) (q : ℚ) : Option α :=
  if ⌊q * l.length⌋ < 0 then none else l.get? (⌊q * l.length⌋).toNat

/-- The `Math.random()` draws one `tournamentSelect` call consumes:
`draw i` indexes the i-th tournament pick (line 123) and `pick` decides
best-vs-underdog (line 128). -/
structure TDraw where
  draw : ℕ → ℚ
  pick : ℚ

/-- `tournamentSelect` (evolution-engine.ts lines 119-129).  The drawn
entries may be `undefined` when the candidate array is empty (or a draw is
out of range); per ECMA-262, `Array.prototype.sort` never passes
`undefined` to the comparator — such entries are moved to the end — so the
function returns `undefined` rather than throwing.  Defined entries are
sorted descending by `fitness_score` (`insertionSort`; the source sort is
stable, and no settled claim depends on tie order).  With probability 0.8
the best entry wins, otherwise the last (weakest) entry.  Every call site
uses the default `tournamentSize = 2`. -/
def tournamentSelect (agents : List EvoAgent) (tournamentSize : ℕ) (r : TDraw) :
    Option EvoAgent :=
  let tournament := (List.range tournamentSize).map (fun i => jsGet agents (r.draw i))
  let present := tournament.filterMap id
  let sorted := List.insertionSort
    (fun a b : EvoAgent => b.fitness_score ≤ a.fitness_score) present
  let sortedTournament := sorted.map some ++
    List.replicate (tournament.length - present.length) (none : Option EvoAgent)
  if r.pick < 0.8 then sortedTournament.head?.getD none
  else sortedTournament.getLast?.getD none

/-- The survivor-selection loop (evolution-engine.ts lines 188-196):
starting from the elites, repeatedly tournament-select from the non-elite
pool and append the winner unless its id is already present, until the
survivor list reaches `survivorCount` (or the pool is empty).  `r k` holds
the draws of iteration `k`.  Returns `none` when the fuel runs out with
the loop still running, or in the out-of-range-draw corner where the
source would dereference `undefined`. -/
def selectSurvivorsGo (survivorCount : ℕ) (nonElites : List EvoAgent)
    (r : ℕ → TDraw) : ℕ → ℕ → List EvoAgent → Option (List EvoAgent)
  | 0, _, survivors =>
    if survivors.length < survivorCount ∧ 0 < nonElites.length then none
    else some survivors
  | fuel + 1, k, survivors =>
    if survivors.length < survivorCount ∧ 0 < nonElites.length then
      match tournamentSelect nonElites 2 (r k) with
      | none => none
      | some selected =>
        selectSurvivorsGo survivorCount nonElites r fuel (k + 1)
          (if survivors.any (fun s => s.id = selected.id) then survivors
           else survivors ++ [selected])
    else some survivors

/-- The agent row the breeding loop inserts (evolution-engine.ts lines
259-274).  The random cosmetic `name`, the opaque store `generation_id`
and the null `wallet_address` are not modelled. -/
structure ChildAgent where
  generation_index : ℕ
  parent_ids : List String
  dna : AgentDNA
  strategy_type : String
  status : AgentStatus
  profit_all_time : ℚ
  profit_period : ℚ
  trade_count_period : ℚ
  win_rate_period : ℚ
  max_drawdown_period : ℚ
  fitness_score : ℚ
deriving DecidableEq

/-- The draws one breeding iteration consumes: two tournament selections,
the per-field crossover picks, the per-field mutation triggers and
standard-normal draws, and the strategy-type coin (line 265). -/
structure BreedIterRand where
  sel1 : TDraw
  sel2 : TDraw
  cross : ℕ → ℚ
  mutDraws : MutateRand
  strat : ℚ

/-- Outcome of the breeding loop under fuel: finished with the bred
agents, fuel exhausted with the loop still running, or a TypeError
(dereference of `undefined`) thrown. -/
inductive BreedResult where
  | done (newAgents : List ChildAgent)
  | outOfFuel
  | thrown
deriving DecidableEq

/-- The breeding loop (evolution-engine.ts lines 248-275).  Per iteration:
`parent1` is tournament-selected from the survivors — when that yields
`undefined` on a nonempty survivor list the subsequent
`survivors.filter(s => s.id !== parent1.id)` callback throws (TypeError on
`undefined.id`), while on an empty list the filter callback never runs —
then `parent2` is tournament-selected from the survivors of different id,
and `if (!parent2) continue;` retries the iteration when that yielded
`undefined`.  Otherwise the child is bred, mutated and accumulated. -/
def breedLoop (cfg : EvolutionConfig) (newGenIndex : ℕ) (survivors : List EvoAgent)
    (r : ℕ → BreedIterRand) (eliminateCount : ℕ) :
    ℕ → ℕ → List ChildAgent → BreedResult
  | 0, _, _ => .outOfFuel
  | fuel + 1, k, acc =>
    if acc.length < eliminateCount then
      match tournamentSelect survivors 2 (r k).sel1 with
      | none =>
        if survivors.isEmpty then
          breedLoop cfg newGenIndex survivors r eliminateCount fuel (k + 1) acc
        else .thrown
      | some parent1 =>
        match tournamentSelect (survivors.filter (fun s => s.id ≠ parent1.id)) 2
            (r k).sel2 with
        | none => breedLoop cfg newGenIndex survivors r eliminateCount fuel (k + 1) acc
        | some parent2 =>
          breedLoop cfg newGenIndex survivors r eliminateCount fuel (k + 1) (acc ++
            [{ generation_index := newGenIndex
               parent_ids := [parent1.id, parent2.id]
               dna := mutate cfg (r k).mutDraws (breed (r k).cross parent1.dna parent2.dna)
               strategy_type :=
                 if (r k).strat > 0.5 then parent1.strategy_type
                 else parent2.strategy_type
               status := .running
               profit_all_time := 0
               profit_period := 0
               trade_count_period := 0
               win_rate_period := 0.5
               max_drawdown_period := 0
               fitness_score := 50 }])
    else .done acc

/-- Everything a completed evolution cycle computed and wrote. -/
structure CycleData where
  scoredSorted : List EvoAgent
  eliteCount : ℕ
  eliminateCount : ℕ
  survivorCount : ℕ
  elites : List EvoAgent
  survivors : List EvoAgent
  eliminated : List EvoAgent
  newGenIndex : ℕ
  genStoreMid : List GenerationRow
  genStoreFinal : List GenerationRow
  newAgents : List ChildAgent
  updatedSurvivors : List EvoAgent
deriving DecidableEq

/-- Outcome of one `runEvolutionCycle` run: the no-agents early return
(lines 165-168) with its result object, a completed cycle, a loop that
outlived its fuel, or a thrown TypeError. -/
inductive CycleOutcome where
  | noAgents (newGeneration survivors newAgents eliminated : ℕ)
  | ok (d : CycleData)
  | hung
  | thrown
deriving DecidableEq

/-- Whether the outcome is a completed cycle. -/
def CycleOutcome.isOk : CycleOutcome → Bool
  | .ok _ => true
  | _ => false

/-- The completed cycle's data, when the outcome is one. -/
def CycleOutcome.data? : CycleOutcome → Option CycleData
  | .ok d => some d
  | _ => none

/-- Lines 171-177: rescore every agent via the scoring function (the
`calculateFitness` call site) and sort descending by `fitness_score`. -/
def scoredSortedOf (score : EvoAgent → ℚ) (agents : List EvoAgent) : List EvoAgent :=
  List.insertionSort (fun a b : EvoAgent => b.fitness_score ≤ a.fitness_score)
    (agents.map (fun a => { a with fitness_score := score a }))

/-- Line 180: `Math.floor(totalAgents * config.elitePercentage)`. -/
def eliteCountOf (cfg : EvolutionConfig) (totalAgents : ℕ) : ℕ :=
  (⌊(totalAgents : ℚ) * cfg.elitePercentage⌋).toNat

/-- Line 181: `Math.floor(totalAgents * config.eliminationPercentage)`. -/
def eliminateCountOf (cfg : EvolutionConfig) (totalAgents : ℕ) : ℕ :=
  (⌊(totalAgents : ℚ) * cfg.eliminationPercentage⌋).toNat

/-- Line 156: `currentGen?.index || 0` — the active generation's index,
zero when there is none (an index of 0 is also falsy, yielding 0 again). -/
def currentGenIndexOf (genStore : List GenerationRow) : ℕ :=
  ((getActiveGeneration genStore).map (fun g => g.index)).getD 0

/-- Everything a completed cycle computed and wrote, assembled from the
selection and breeding results (evolution-engine.ts lines 179-289). -/
def mkCycleData (cfg : EvolutionConfig) (score : EvoAgent → ℚ)
    (genStore : List GenerationRow) (newGenId : ℕ) (agents : List EvoAgent)
    (survivors : List EvoAgent) (newAgents : List ChildAgent) : CycleData :=
  let sorted := scoredSortedOf score agents
  let eliteCount := eliteCountOf cfg sorted.length
  let eliminateCount := eliminateCountOf cfg sorted.length
  let newGenIndex := currentGenIndexOf genStore + 1
  { scoredSorted := sorted
    eliteCount := eliteCount
    eliminateCount := eliminateCount
    survivorCount := sorted.length - eliminateCount
    elites := sorted.take eliteCount
    survivors := survivors
    eliminated := sorted.filter (fun a => !(survivors.any (fun s => s.id = a.id)))
    newGenIndex := newGenIndex
    genStoreMid := insertNewGeneration genStore newGenId newGenIndex
    genStoreFinal :=
      match getActiveGeneration genStore with
      | some old =>
        completeOldGeneration (insertNewGeneration genStore newGenId newGenIndex) old.id
      | none => insertNewGeneration genStore newGenId newGenIndex
    newAgents := newAgents
    updatedSurvivors := survivors.map (fun s => { s with generation_index := newGenIndex }) }

/-- `runEvolutionCycle` (evolution-engine.ts lines 132-321), composed from
the pieces above.  Inputs: the configuration, the scoring function (see
the section comment), the generations store and the id the store will
assign the inserted generation, the fetched agents with status in
{running, paused} (lines 159-163; the store returns them sorted by
`fitness_score`, but the cycle re-sorts after rescoring, so the input
order is irrelevant), the two random streams, and the two loop fuels.
In the source the eliminated-marking and the two generation writes happen
between selection and breeding; for a completed cycle they are recorded in
the returned `CycleData` (`eliminated`, `genStoreMid`, `genStoreFinal`). -/
def runEvolutionCycleModel (cfg : EvolutionConfig) (score : EvoAgent → ℚ)
    (genStore : List GenerationRow) (newGenId : ℕ) (agents : List EvoAgent)
    (selR : ℕ → TDraw) (brR : ℕ → BreedIterRand) (selFuel breedFuel : ℕ) :
    CycleOutcome :=
  if agents.isEmpty then .noAgents (currentGenIndexOf genStore) 0 0 0
  else
    let sorted := scoredSortedOf score agents
    let eliteCount := eliteCountOf cfg sorted.length
    let eliminateCount := eliminateCountOf cfg sorted.length
    match selectSurvivorsGo (sorted.length - eliminateCount) (sorted.drop eliteCount)
        selR selFuel 0 (sorted.take eliteCount) with
    | none => .hung
    | some survivors =>
      match breedLoop cfg (currentGenIndexOf genStore + 1) survivors brR eliminateCount
          breedFuel 0 [] with
      | .outOfFuel => .hung
      | .thrown => .thrown
      | .done newAgents =>
        .ok (mkCycleData cfg score genStore newGenId agents survivors newAgents)

/-! ### Concrete fixtures for evolution-cycle runs -/

/-- An agent row with the given id and fitness, empty DNA. -/
def mkAgent (id : String) (fit : ℚ) : EvoAgent :=
  { id := id, fitness_score := fit, dna := [], strategy_type := "momentum",
    generation_index := 0 }

/-- Ten agents with distinct ids and distinct fitness scores, matching the
spec's N=10 scenario. -/
def tenAgents : List EvoAgent :=
  [mkAgent "a0" 95, mkAgent "a1" 90, mkAgent "a2" 85, mkAgent "a3" 80,
   mkAgent "a4" 75, mkAgent "a5" 70, mkAgent "a6" 65, mkAgent "a7" 60,
   mkAgent "a8" 55, mkAgent "a9" 50]

/-- Selection draws: iteration `k` picks index `⌊(k mod 7)/7 · len⌋` twice
and lets the best win, so successive iterations add distinct survivors. -/
def selTestR : ℕ → TDraw :=
  fun k => { draw := fun _ => mkRat (k % 7) 7, pick := mkRat 1 2 }

/-- Breeding draws: both tournament selections pick index 0 and let the
best win; crossover always takes parent 1; mutation never fires; the
strategy coin picks parent 1. -/
def breedTestR : ℕ → BreedIterRand :=
  fun _ =>
    { sel1 := { draw := fun _ => 0, pick := 0 }
      sel2 := { draw := fun _ => 0, pick := 0 }
      cross := fun _ => 1
      mutDraws := neverMutate
      strat := 1 }

/-- A generations store holding a single active generation of index 0. -/
def genStore0 : List GenerationRow := [⟨1, 0, GenerationStatus.active⟩]

/-- A draw stream whose values lie in `[0, 1)`, as `Math.random()`
guarantees. -/
def TDrawInRange (t : TDraw) : Prop := ∀ i, 0 ≤ t.draw i ∧ t.draw i < 1

/-- A single-survivor list, the degenerate breeding input of C10. -/
def oneSurvivor : List EvoAgent := [mkAgent "s0" 80]

/-- The breeding loop eventually raises a TypeError. -/
def breedLoopEverThrows (cfg : EvolutionConfig) (newGenIndex : ℕ)
    (survivors : List EvoAgent) (r : ℕ → BreedIterRand) (eliminateCount : ℕ) : Prop :=
  ∃ fuel, breedLoop cfg newGenIndex survivors r eliminateCount fuel 0 [] = .thrown

/-- The breeding loop eventually terminates with a result. -/
def breedLoopEverCompletes (cfg : EvolutionConfig) (newGenIndex : ℕ)
    (survivors : List EvoAgent) (r : ℕ → BreedIterRand) (eliminateCount : ℕ) : Prop :=
  ∃ fuel l, breedLoop cfg newGenIndex survivors r eliminateCount fuel 0 [] = .done l

end EvoSwarm

namespace EvoSwarm

/-- C1: for every metrics input, `calculateFitness` returns
`clamp((raw+1)*50, 0, 100)` with `raw` the spec's weighted score, and the
result always lies in `[0, 100]`. -/
theorem calculateFitness_matches_spec_and_bounded (agent : FitnessInput) :
    calculateFitness agent = specClamp ((specRawScore agent + 1) * 50) 0 100 ∧
    0 ≤ calculateFitness agent ∧ calculateFitness agent ≤ 100 := by
  refine ⟨?_, ?_, ?_⟩
  · unfold calculateFitness specRawScore specClamp FITNESS_WEIGHTS
    ring_nf
  · unfold calculateFitness
    exact le_max_left 0 _
  · unfold calculateFitness
    exact max_le (by norm_num) (min_le_left _ _)

/-- C9: `calculateFitness` is deterministic — it depends only on the four
metric fields of its argument, so any two calls on equal inputs return
identical outputs; in particular the score the population manager computes
when rescoring an agent the scheduler has just updated equals the
`fitness_score` the scheduler stored (no hidden time-dependent or random
state in either call site). -/
theorem calculateFitness_deterministic :
    (∀ m₁ m₂ : FitnessInput,
      m₁.profit_period = m₂.profit_period →
      m₁.win_rate_period = m₂.win_rate_period →
      m₁.max_drawdown_period = m₂.max_drawdown_period →
      m₁.trade_count_period = m₂.trade_count_period →
      calculateFitness m₁ = calculateFitness m₂) ∧
    (∀ (agent : AgentMetrics) (pnl : ℝ),
      rescoreFitness (updateAgentMetrics agent pnl) =
        (updateAgentMetrics agent pnl).fitness_score) := by
  constructor
  · intro m₁ m₂ h₁ h₂ h₃ h₄
    cases m₁
    cases m₂
    simp only at h₁ h₂ h₃ h₄
    subst h₁
    subst h₂
    subst h₃
    subst h₄
    rfl
  · intro agent pnl
    rfl

/-- Witness for C9 at a concrete input: both hypothesised field equalities
hold at `⟨1000, 0.7, 10, 50⟩` and the theorem yields equality of the two
calls. -/
theorem calculateFitness_deterministic_witness :
    calculateFitness ⟨1000, 0.7, 10, 50⟩ = calculateFitness ⟨1000, 0.7, 10, 50⟩ :=
  calculateFitness_deterministic.1 ⟨1000, 0.7, 10, 50⟩ ⟨1000, 0.7, 10, 50⟩ rfl rfl rfl rfl

/-- C3 counterexample: on the probabilistic failure branch
(`failRoll = 0.96 > 0.95`, non-hold action) `executeDecision` inserts no
transaction row at all — in particular no `ExecutionRecord` with
`status = failed` exists, contrary to the claim; it merely returns
`success = false`. -/
theorem executeDecision_failure_inserts_nothing :
    (executeDecision "agent-1" confidentBuyDecision sampleState failingRand).2 = [] ∧
    ((executeDecision "agent-1" confidentBuyDecision sampleState failingRand).2.filter
      (fun tx => tx.status = TxStatus.failed)) = [] ∧
    (executeDecision "agent-1" confidentBuyDecision sampleState failingRand).1.success = false := by
  with_unfolding_all decide

/-- C3 amended: when the probabilistic failure branch is taken
(failure draw > 0.95 on a non-hold decision), `executeDecision` returns
`success = false` with the liquidity error and inserts no transaction row
(neither `filled` nor `failed`), and the agent's metrics are left unchanged
by that cycle. -/
theorem failed_execution_unrecorded_metrics_unchanged
    (fitness : ℚ → ℚ → ℚ → ℚ → ℚ) (agent : AgentMetricsQ)
    (decision : StrategyDecision) (state : MarketState) (r : ExecRand)
    (hact : decision.action ≠ .hold) (hfail : r.failRoll > 0.95) :
    executeDecision agent.id decision state r =
      ({ success := false, hasTxHash := false, pnl := none,
         error := some "Transaction reverted: insufficient liquidity" }, []) ∧
    (runAgentCycleCore fitness agent decision state r).2.1 = [] ∧
    (runAgentCycleCore fitness agent decision state r).2.2 = agent := by
  have hexec : executeDecision agent.id decision state r =
      ({ success := false, hasTxHash := false, pnl := none,
         error := some "Transaction reverted: insufficient liquidity" }, []) := by
    unfold executeDecision
    simp [hact, hfail]
  refine ⟨hexec, ?_, ?_⟩ <;>
    · unfold runAgentCycleCore
      by_cases hc : decision.confidence > 0.6
      · simp [hact, hc, hexec]
      · simp [hact, hc]

/-- Witness for C3's amended theorem at a concrete input: the hypotheses
hold for the confident buy decision and the failing draw, and the theorem
yields the conclusion there. -/
theorem failed_execution_unrecorded_metrics_unchanged_witness :
    confidentBuyDecision.action ≠ TradeAction.hold ∧
    failingRand.failRoll > 0.95 ∧
    ((runAgentCycleCore constFitness sampleAgent confidentBuyDecision sampleState
        failingRand).2.1 = [] ∧
     (runAgentCycleCore constFitness sampleAgent confidentBuyDecision sampleState
        failingRand).2.2 = sampleAgent) :=
  ⟨by decide, by with_unfolding_all decide,
    (failed_execution_unrecorded_metrics_unchanged constFitness sampleAgent
      confidentBuyDecision sampleState failingRand (by decide)
      (by with_unfolding_all decide)).2⟩

/-- C4 counterexample: a non-hold decision with confidence 0.5 ≤ 0.6 is
not executed (no transaction row), but the execution-log row records the
original `sell` action with `executed = true` — not a non-executed hold
with `executed = false` as the claim states. -/
theorem subthreshold_logged_as_executed_sell :
    ((runAgentCycleCore constFitness sampleAgent subThresholdSellDecision sampleState
        failingRand).1.map (fun l => l.executed)) = [true] ∧
    ((runAgentCycleCore constFitness sampleAgent subThresholdSellDecision sampleState
        failingRand).1.map (fun l => l.decision.action)) = [TradeAction.sell] ∧
    (runAgentCycleCore constFitness sampleAgent subThresholdSellDecision sampleState
        failingRand).2.1 = [] := by
  with_unfolding_all decide

/-- C4 amended: simulated execution is invoked only when the decision is
non-hold and its confidence exceeds 0.6; a non-hold decision with
confidence at or below 0.6 does not mutate the agent's metrics and
produces no transaction, but its execution-log row keeps the original
action and carries `executed = true` (the flag reflects
`action !== 'hold'`, not whether execution happened). -/
theorem execution_gate_and_log_flag :
    (∀ (fitness : ℚ → ℚ → ℚ → ℚ → ℚ) (agent : AgentMetricsQ)
       (decision : StrategyDecision) (state : MarketState) (r : ExecRand),
      decision.action ≠ .hold → decision.confidence ≤ 0.6 →
      runAgentCycleCore fitness agent decision state r =
        ([{ agent_id := agent.id
            decision := decision
            simulated_outcome := some
              { expectedPnl := jsOr decision.qty 0 * 0.01
                gasEstimate := 150000
                slippage := 0.5 }
            executed := true }], [], agent)) ∧
    (∀ (fitness : ℚ → ℚ → ℚ → ℚ → ℚ) (agent : AgentMetricsQ)
       (decision : StrategyDecision) (state : MarketState) (r : ExecRand),
      (runAgentCycleCore fitness agent decision state r).2.1 ≠ [] →
      decision.action ≠ .hold ∧ decision.confidence > 0.6) := by
  constructor
  · intro fitness agent decision state r hact hc
    unfold runAgentCycleCore
    rw [if_neg (by exact fun h => absurd h.2 (not_lt.mpr hc))]
    simp [hact]
  · intro fitness agent decision state r htx
    by_contra hgate
    apply htx
    unfold runAgentCycleCore at htx ⊢
    rw [if_neg hgate]

/-- Witness for C4's amended theorem at a concrete input: the sell
decision with confidence 0.5 satisfies both hypotheses and the theorem
yields the log/no-transaction conclusion there. -/
theorem execution_gate_and_log_flag_witness :
    subThresholdSellDecision.action ≠ TradeAction.hold ∧
    subThresholdSellDecision.confidence ≤ 0.6 ∧
    runAgentCycleCore constFitness sampleAgent subThresholdSellDecision sampleState
        failingRand =
      ([{ agent_id := sampleAgent.id
          decision := subThresholdSellDecision
          simulated_outcome := some
            { expectedPnl := jsOr subThresholdSellDecision.qty 0 * 0.01
              gasEstimate := 150000
              slippage := 0.5 }
          executed := true }], [], sampleAgent) :=
  ⟨by decide, by with_unfolding_all decide,
    execution_gate_and_log_flag.1 constFitness sampleAgent subThresholdSellDecision
      sampleState failingRand (by decide) (by with_unfolding_all decide)⟩

/-- C6 counterexample: a mutation rate of 1.5 — outside `[0, 1]` — is
adopted verbatim into the configuration, and both the agent-executor loop
(given store credentials) and the evolution timer still start: startup
does not fail fast on the invalid fraction. -/
theorem invalid_fraction_still_starts :
    (configOfEnv ⟨some 1.5, none, none⟩).mutationRate = 1.5 ∧
    ¬ (configOfEnv ⟨some 1.5, none, none⟩).mutationRate ≤ 1 ∧
    startAgentExecutor ⟨"http://localhost:54321", "service-key"⟩ = true ∧
    (scheduleEvolution none).2 = true := by
  with_unfolding_all decide

/-- C6 amended: the configuration fractions are read via `parseFloat` with
defaults and adopted verbatim — they are neither validated nor clamped —
and startup never inspects them: the evolution timer is always scheduled,
and the executor loop starts whenever the store credentials are non-empty,
regardless of the fraction values. -/
theorem config_fractions_never_validated
    (env : FractionEnv) (url key : String) (hours : Option ℕ)
    (hurl : url ≠ "") (hkey : key ≠ "") :
    configOfEnv env =
      { mutationRate := env.MUTATION_RATE.getD 0.15
        elitePercentage := env.ELITE_PERCENTAGE.getD 0.2
        eliminationPercentage := env.ELIMINATION_PERCENTAGE.getD 0.3 } ∧
    startAgentExecutor ⟨url, key⟩ = true ∧
    (scheduleEvolution hours).2 = true := by
  refine ⟨rfl, ?_, rfl⟩
  unfold startAgentExecutor
  simp [hurl, hkey]

/-- Witness for C6's amended theorem at a concrete input with an
out-of-range elimination fraction. -/
theorem config_fractions_never_validated_witness :
    "u" ≠ "" ∧ "k" ≠ "" ∧
    (configOfEnv ⟨none, none, some 2⟩ =
      { mutationRate := (none : Option ℚ).getD 0.15
        elitePercentage := (none : Option ℚ).getD 0.2
        eliminationPercentage := (some (2 : ℚ)).getD 0.3 } ∧
     startAgentExecutor ⟨"u", "k"⟩ = true ∧
     (scheduleEvolution (some 24)).2 = true) :=
  ⟨by decide, by decide,
    config_fractions_never_validated ⟨none, none, some 2⟩ "u" "k" (some 24)
      (by decide) (by decide)⟩

/-! ### Helper lemmas for crossover/mutation bounds (C7) -/

/-- A JavaScript assignment `dna[key] = v` only introduces the pair
`(key, v)` or keeps pairs already present. -/
theorem mem_dnaSet {dna : AgentDNA} {key : String} {v : DnaValue}
    {p : String × DnaValue} (hp : p ∈ dnaSet dna key v) :
    p = (key, v) ∨ p ∈ dna := by
  unfold dnaSet at hp
  split at hp
  · rcases List.mem_map.mp hp with ⟨orig, ho, rfl⟩
    by_cases h : orig.1 = key
    · left
      simp [h]
    · right
      simpa [h] using ho
  · rcases List.mem_append.mp hp with h | h
    · right
      exact h
    · left
      simpa using h

/-- A successful `dna[key]` lookup returns a pair of the record. -/
theorem dnaLookup_mem {dna : AgentDNA} {key : String} {v : DnaValue}
    (h : dnaLookup dna key = some v) : (key, v) ∈ dna := by
  unfold dnaLookup at h
  rcases hf : dna.find? (fun p => p.1 = key) with _ | a
  · rw [hf] at h
    simp at h
  · rw [hf] at h
    have hmem := List.mem_of_find?_eq_some hf
    have hkey : a.1 = key := by simpa using List.find?_some hf
    obtain ⟨k₂, v₂⟩ := a
    simp at h hkey
    rw [← h, ← hkey]
    exact hmem

/-- `clamp` lands in `[lo, hi]` whenever `lo ≤ hi`. -/
theorem clamp_of_le {v lo hi : ℚ} (h : lo ≤ hi) :
    lo ≤ clamp v lo hi ∧ clamp v lo hi ≤ hi :=
  ⟨le_max_left _ _, max_le h (min_le_left _ _)⟩

/-- Even with inverted bounds (`lo > hi`, as happens for a negative
unbounded field), `clamp` stays between the two bound values. -/
theorem clamp_between (v lo hi : ℚ) :
    min lo hi ≤ clamp v lo hi ∧ clamp v lo hi ≤ max lo hi :=
  ⟨le_trans (min_le_left _ _) (le_max_left _ _),
   max_le (le_max_left _ _) (le_trans (min_le_left _ _) (le_max_right _ _))⟩

/-- Any value lies between half and one-and-a-half times itself,
whichever order those take. -/
theorem self_between_halves (q : ℚ) :
    min (q * 0.5) (q * 1.5) ≤ q ∧ q ≤ max (q * 0.5) (q * 1.5) := by
  rcases le_total 0 q with h | h
  · exact ⟨le_trans (min_le_left _ _) (by nlinarith), le_trans (by nlinarith) (le_max_right _ _)⟩
  · exact ⟨le_trans (min_le_right _ _) (by nlinarith), le_trans (by nlinarith) (le_max_left _ _)⟩

/-- Soundness of the executable bound check `dnaRespectsBounds`. -/
theorem inv_of_dnaRespectsBounds {dna : AgentDNA} (h : dnaRespectsBounds dna = true) :
    ∀ key b q, paramBound? key = some b → (key, DnaValue.num q) ∈ dna →
      b.min ≤ q ∧ q ≤ b.max := by
  intro key b q hb hm
  have hall := List.all_eq_true.mp h _ hm
  simp only at hall
  rw [hb] at hall
  exact of_decide_eq_true hall

/-- The crossover loop preserves the per-field bound invariant: if the
accumulated child and both parent sources only hold in-bound values at
bounded keys, so does the loop's result. -/
theorem breedGo_bound_inv (crossDraw : ℕ → ℚ) (parent2Dna : AgentDNA)
    (entries : List (String × DnaValue)) :
    ∀ (i : ℕ) (child : AgentDNA),
      (∀ key b q, paramBound? key = some b → (key, DnaValue.num q) ∈ child →
        b.min ≤ q ∧ q ≤ b.max) →
      (∀ key b q, paramBound? key = some b → (key, DnaValue.num q) ∈ entries →
        b.min ≤ q ∧ q ≤ b.max) →
      (∀ key b q, paramBound? key = some b → (key, DnaValue.num q) ∈ parent2Dna →
        b.min ≤ q ∧ q ≤ b.max) →
      ∀ key b q, paramBound? key = some b →
        (key, DnaValue.num q) ∈ breedGo crossDraw parent2Dna entries i child →
        b.min ≤ q ∧ q ≤ b.max := by
  induction entries with
  | nil =>
    intro i child hchild _ _ key b q hb hm
    exact hchild key b q hb (by simpa [breedGo] using hm)
  | cons e rest ih =>
    intro i child hchild hentries hp2 key b q hb hm
    obtain ⟨ekey, ev⟩ := e
    have hrest : ∀ key b q, paramBound? key = some b → (key, DnaValue.num q) ∈ rest →
        b.min ≤ q ∧ q ≤ b.max := fun key b q hb hmem =>
      hentries key b q hb (List.mem_cons_of_mem _ hmem)
    rcases ev with q1 | _
    · rcases hl : dnaLookup parent2Dna ekey with _ | v2
      · simp only [breedGo, hl] at hm
        exact ih i child hchild hrest hp2 key b q hb hm
      · rcases v2 with q2 | _
        · simp only [breedGo, hl] at hm
          refine ih (i + 1) _ ?_ hrest hp2 key b q hb hm
          intro key' b' q' hb' hm'
          rcases mem_dnaSet hm' with heq | hold
          · have hk : key' = ekey := congrArg Prod.fst heq
            have hq' : q' = if crossDraw i > 0.5 then q1 else q2 := by
              have hv := congrArg Prod.snd heq
              simpa using hv
            by_cases hc : crossDraw i > 0.5
            · rw [hq', if_pos hc]
              exact hentries ekey b' q1 (hk ▸ hb') (List.mem_cons_self _ _)
            · rw [hq', if_neg hc]
              exact hp2 ekey b' q2 (hk ▸ hb') (dnaLookup_mem hl)
          · exact hchild key' b' q' hb' hold
        · simp only [breedGo, hl] at hm
          exact ih i child hchild hrest hp2 key b q hb hm
    · simp only [breedGo] at hm
      exact ih i child hchild hrest hp2 key b q hb hm

/-- Every numeric field of a mutation result comes from a numeric field of
the input DNA at the same key, either unchanged or perturbed-and-clamped
with the bounds the source computes for that key. -/
theorem mutateGo_mem (cfg : EvolutionConfig) (r : MutateRand) :
    ∀ (dna : List (String × DnaValue)) (i : ℕ) (key : String) (q : ℚ),
      (key, DnaValue.num q) ∈ mutateGo cfg r dna i →
      ∃ q₀, (key, DnaValue.num q₀) ∈ dna ∧
        (q = q₀ ∨ ∃ z,
          q = clamp (q₀ + gaussianRandom z 0 (q₀ * 0.1))
                ((paramBound? key).getD ⟨q₀ * 0.5, q₀ * 1.5⟩).min
                ((paramBound? key).getD ⟨q₀ * 0.5, q₀ * 1.5⟩).max) := by
  intro dna
  induction dna with
  | nil =>
    intro i key q hm
    simp [mutateGo] at hm
  | cons e rest ih =>
    intro i key q hm
    obtain ⟨ekey, ev⟩ := e
    rcases ev with c | _
    · by_cases ht : r.trig i < cfg.mutationRate
      · simp only [mutateGo, if_pos ht] at hm
        rcases List.mem_cons.mp hm with heq | htail
        · have hk : key = ekey := congrArg Prod.fst heq
          have hq : q = clamp (c + gaussianRandom (r.z i) 0 (c * 0.1))
              ((paramBound? ekey).getD ⟨c * 0.5, c * 1.5⟩).min
              ((paramBound? ekey).getD ⟨c * 0.5, c * 1.5⟩).max := by
            have hv := congrArg Prod.snd heq
            simpa using hv
          refine ⟨c, ?_, Or.inr ⟨r.z i, ?_⟩⟩
          · rw [hk]
            exact List.mem_cons_self _ _
          · rw [hq, hk]
        · obtain ⟨q₀, hq₀, hrel⟩ := ih (i + 1) key q htail
          exact ⟨q₀, List.mem_cons_of_mem _ hq₀, hrel⟩
      · simp only [mutateGo, if_neg ht] at hm
        rcases List.mem_cons.mp hm with heq | htail
        · have hk : key = ekey := congrArg Prod.fst heq
          have hq : q = c := by
            have hv := congrArg Prod.snd heq
            simpa using hv
          refine ⟨c, ?_, Or.inl hq⟩
          rw [hk]
          exact List.mem_cons_self _ _
        · obtain ⟨q₀, hq₀, hrel⟩ := ih (i + 1) key q htail
          exact ⟨q₀, List.mem_cons_of_mem _ hq₀, hrel⟩
    · simp only [mutateGo] at hm
      rcases List.mem_cons.mp hm with heq | htail
      · exact absurd (congrArg Prod.snd heq) (by simp)
      · obtain ⟨q₀, hq₀, hrel⟩ := ih i key q htail
        exact ⟨q₀, List.mem_cons_of_mem _ hq₀, hrel⟩

/-- C7 counterexample: both parents carry `riskTolerance = 2`; crossover
copies it and the mutation trigger does not fire, so the bred child's
`riskTolerance` is 2, outside the bound table's `[0.05, 0.95]` — the
unconditional claim fails because unmutated fields inherit out-of-range
parent values unchecked. -/
theorem unmutated_child_field_escapes_bounds :
    dnaLookup (mutate defaultConfig neverMutate
        (breed pickParent1 outOfBoundsParent outOfBoundsParent)) "riskTolerance" =
      some (DnaValue.num 2) ∧
    paramBound? "riskTolerance" = some ⟨0.05, 0.95⟩ ∧
    ¬ ((2 : ℚ) ≤ 0.95) := by
  with_unfolding_all decide

/-- C7 amended: if every numeric field of both parents that appears in the
bound table lies within its configured bound, then every numeric field of
a child produced by `breed` followed by `mutate` lies within the bound
table range for that field, or — for fields absent from the table —
between 50% and 150% of its pre-mutation (post-crossover) value. -/
theorem child_dna_within_bounds
    (cfg : EvolutionConfig) (crossDraw : ℕ → ℚ) (r : MutateRand)
    (parent1Dna parent2Dna : AgentDNA)
    (hp1 : ∀ key b q, paramBound? key = some b →
      (key, DnaValue.num q) ∈ parent1Dna → b.min ≤ q ∧ q ≤ b.max)
    (hp2 : ∀ key b q, paramBound? key = some b →
      (key, DnaValue.num q) ∈ parent2Dna → b.min ≤ q ∧ q ≤ b.max) :
    ∀ key q, (key, DnaValue.num q) ∈ mutate cfg r (breed crossDraw parent1Dna parent2Dna) →
      (∃ b, paramBound? key = some b ∧ b.min ≤ q ∧ q ≤ b.max) ∨
      (paramBound? key = none ∧
        ∃ q₀, (key, DnaValue.num q₀) ∈ breed crossDraw parent1Dna parent2Dna ∧
          min (q₀ * 0.5) (q₀ * 1.5) ≤ q ∧ q ≤ max (q₀ * 0.5) (q₀ * 1.5)) := by
  intro key q hm
  obtain ⟨q₀, hq₀mem, hrel⟩ := mutateGo_mem cfg r _ 0 key q hm
  have hbreedInv : ∀ key b q, paramBound? key = some b →
      (key, DnaValue.num q) ∈ breed crossDraw parent1Dna parent2Dna →
      b.min ≤ q ∧ q ≤ b.max :=
    breedGo_bound_inv crossDraw parent2Dna parent1Dna 0 defaultChildDna
      (inv_of_dnaRespectsBounds (by with_unfolding_all decide)) hp1 hp2
  rcases hpb : paramBound? key with _ | b
  · refine Or.inr ⟨rfl, q₀, hq₀mem, ?_⟩
    rcases hrel with rfl | ⟨z, rfl⟩
    · exact self_between_halves q
    · rw [hpb]
      exact clamp_between _ _ _
  · refine Or.inl ⟨b, rfl, ?_⟩
    have hq₀b := hbreedInv key b q₀ hpb hq₀mem
    rcases hrel with rfl | ⟨z, rfl⟩
    · exact hq₀b
    · rw [hpb]
      exact clamp_of_le (le_trans hq₀b.1 hq₀b.2)

/-- Witness for C7's amended theorem: two concrete in-bounds parents breed
(crossover always picks parent 1, no mutation fires) and the theorem
applied at the child's `riskTolerance` field, which holds 0.3, yields its
bound. -/
theorem child_dna_within_bounds_witness :
    (∃ b, paramBound? "riskTolerance" = some b ∧ b.min ≤ (0.3 : ℚ) ∧ (0.3 : ℚ) ≤ b.max) ∨
    (paramBound? "riskTolerance" = none ∧
      ∃ q₀, ("riskTolerance", DnaValue.num q₀) ∈ breed pickParent1 parentA parentB ∧
        min (q₀ * 0.5) (q₀ * 1.5) ≤ (0.3 : ℚ) ∧ (0.3 : ℚ) ≤ max (q₀ * 0.5) (q₀ * 1.5)) :=
  child_dna_within_bounds defaultConfig pickParent1 neverMutate parentA parentB
    (inv_of_dnaRespectsBounds (by with_unfolding_all decide))
    (inv_of_dnaRespectsBounds (by with_unfolding_all decide))
    "riskTolerance" 0.3 (by with_unfolding_all decide)

/-! ### Helper lemmas for the evolution cycle (C2, C5, C8, C10) -/

/-- A defined JavaScript array access returns an element of the array. -/
theorem jsGet_mem {α : Type} {l : List α} {q : ℚ} {a : α}
    (h : jsGet l q = some a) : a ∈ l := by
  unfold jsGet at h
  split at h
  · exact absurd h (by simp)
  · exact List.get?_mem h

/-- Indexing the empty array yields `undefined`. -/
theorem jsGet_nil {α : Type} (q : ℚ) : jsGet ([] : List α) q = none := by
  simp [jsGet]

/-- Indexing a singleton array with a draw in `[0, 1)` yields its element. -/
theorem jsGet_single {α : Type} (x : α) {q : ℚ} (h0 : 0 ≤ q) (h1 : q < 1) :
    jsGet [x] q = some x := by
  unfold jsGet
  have hq : ⌊q * (([x] : List α).length : ℚ)⌋ = 0 := by
    simp only [List.length_singleton, Nat.cast_one, mul_one]
    exact Int.floor_eq_zero_iff.mpr ⟨h0, h1⟩
  rw [hq]
  simp

/-- A defined tournament winner is a member of the candidate array. -/
theorem tournamentSelect_mem {agents : List EvoAgent} {n : ℕ} {r : TDraw}
    {a : EvoAgent} (h : tournamentSelect agents n r = some a) : a ∈ agents := by
  simp only [tournamentSelect] at h
  have hx : some a ∈
      ((List.insertionSort (fun a b : EvoAgent => b.fitness_score ≤ a.fitness_score)
          (((List.range n).map (fun i => jsGet agents (r.draw i))).filterMap id)).map some ++
        List.replicate (((List.range n).map (fun i => jsGet agents (r.draw i))).length -
          (((List.range n).map (fun i => jsGet agents (r.draw i))).filterMap id).length)
          (none : Option EvoAgent)) := by
    split at h
    · rcases hh : (List.head? _) with _ | o
      · rw [hh] at h
        exact absurd h (by simp)
      · rw [hh] at h
        simp only [Option.getD_some] at h
        rw [← h]
        refine List.mem_of_mem_head? ?_
        rw [hh]
        rfl
    · rcases hh : (List.getLast? _) with _ | o
      · rw [hh] at h
        exact absurd h (by simp)
      · rw [hh] at h
        simp only [Option.getD_some] at h
        rw [← h]
        refine List.mem_of_mem_getLast? ?_
        rw [hh]
        rfl
  rcases List.mem_append.mp hx with hmem | hmem
  · rcases List.mem_map.mp hmem with ⟨b, hb, hba⟩
    have hbs : b ∈ ((List.range n).map (fun i => jsGet agents (r.draw i))).filterMap id :=
      (List.perm_insertionSort _ _).mem_iff.mp hb
    rcases List.mem_filterMap.mp hbs with ⟨o, ho, hob⟩
    rcases List.mem_map.mp ho with ⟨i, _, hio⟩
    have hob' : o = some b := hob
    have hba' : b = a := Option.some.inj hba
    have hfin : jsGet agents (r.draw i) = some a := by
      rw [hio, hob', hba']
    exact jsGet_mem hfin
  · exact absurd (List.eq_of_mem_replicate hmem) (by simp)

/-- Tournament selection over the empty candidate array returns
`undefined` — the ECMA-262 sort never passes the drawn `undefined` entries
to the comparator, so nothing throws. -/
theorem tournamentSelect_nil (n : ℕ) (r : TDraw) :
    tournamentSelect [] n r = none := by
  simp only [tournamentSelect, jsGet_nil]
  have hmap : (List.range n).map (fun _ => (none : Option EvoAgent)) =
      List.replicate n (none : Option EvoAgent) := by
    rw [List.map_const']
    simp
  rw [hmap]
  have hfm : (List.replicate n (none : Option EvoAgent)).filterMap id = [] := by
    induction n with
    | zero => rfl
    | succ m ih => simp [List.replicate_succ, ih]
  rw [hfm]
  simp only [List.insertionSort, List.map_nil, List.nil_append, List.length_replicate,
    List.length_nil, Nat.sub_zero]
  cases n with
  | zero => simp
  | succ m =>
    have hlast : (List.replicate (m + 1) (none : Option EvoAgent)).getLast? = some none := by
      rw [List.replicate_succ' m (none : Option EvoAgent)]
      exact List.getLast?_concat _
    have hhead : (List.replicate (m + 1) (none : Option EvoAgent)).head? = some none := by
      simp [List.replicate_succ]
    split
    · rw [hhead]
      rfl
    · rw [hlast]
      rfl

/-- Tournament selection over a singleton array with in-range draws
returns the sole candidate. -/
theorem tournamentSelect_single (x : EvoAgent) (r : TDraw) (hr : TDrawInRange r) :
    tournamentSelect [x] 2 r = some x := by
  have h0 := hr 0
  have h1 := hr 1
  simp only [tournamentSelect]
  rw [show List.range 2 = [0, 1] from rfl]
  simp only [List.map_cons, List.map_nil, jsGet_single x h0.1 h0.2, jsGet_single x h1.1 h1.2]
  simp only [List.filterMap, id]
  simp only [List.insertionSort, List.orderedInsert]
  split <;> simp

/-- Members of the survivor-selection result come from the initial
survivor list or the non-elite pool. -/
theorem selectSurvivorsGo_mem (survivorCount : ℕ) (nonElites : List EvoAgent)
    (r : ℕ → TDraw) :
    ∀ (fuel k : ℕ) (survivors s : List EvoAgent),
      selectSurvivorsGo survivorCount nonElites r fuel k survivors = some s →
      ∀ x ∈ s, x ∈ survivors ∨ x ∈ nonElites := by
  intro fuel
  induction fuel with
  | zero =>
    intro k survivors s hs x hx
    simp only [selectSurvivorsGo] at hs
    split at hs
    · exact absurd hs (by simp)
    · exact Or.inl ((Option.some.inj hs) ▸ hx)
  | succ fuel ih =>
    intro k survivors s hs x hx
    simp only [selectSurvivorsGo] at hs
    split at hs
    · rcases hts : tournamentSelect nonElites 2 (r k) with _ | selected
      · rw [hts] at hs
        exact absurd hs (by simp)
      · rw [hts] at hs
        rcases ih (k + 1) _ s hs x hx with hin | hin
        · split at hin
          · exact Or.inl hin
          · rcases List.mem_append.mp hin with hone | hone
            · exact Or.inl hone
            · have : x = selected := by simpa using hone
              exact Or.inr (this ▸ tournamentSelect_mem hts)
        · exact Or.inr hin
    · exact Or.inl ((Option.some.inj hs) ▸ hx)

/-- The survivor-selection loop only appends: the initial survivors are
members of the result. -/
theorem selectSurvivorsGo_sub (survivorCount : ℕ) (nonElites : List EvoAgent)
    (r : ℕ → TDraw) :
    ∀ (fuel k : ℕ) (survivors s : List EvoAgent),
      selectSurvivorsGo survivorCount nonElites r fuel k survivors = some s →
      ∀ x ∈ survivors, x ∈ s := by
  intro fuel
  induction fuel with
  | zero =>
    intro k survivors s hs x hx
    simp only [selectSurvivorsGo] at hs
    split at hs
    · exact absurd hs (by simp)
    · exact (Option.some.inj hs) ▸ hx
  | succ fuel ih =>
    intro k survivors s hs x hx
    simp only [selectSurvivorsGo] at hs
    split at hs
    · rcases hts : tournamentSelect nonElites 2 (r k) with _ | selected
      · rw [hts] at hs
        exact absurd hs (by simp)
      · rw [hts] at hs
        refine ih (k + 1) _ s hs x ?_
        split
        · exact hx
        · exact List.mem_append.mpr (Or.inl hx)
    · exact (Option.some.inj hs) ▸ hx

/-- When the loop finishes with fuel to spare, the survivor list has
reached `survivorCount` exactly — unless the non-elite pool was empty. -/
theorem selectSurvivorsGo_length (survivorCount : ℕ) (nonElites : List EvoAgent)
    (r : ℕ → TDraw) :
    ∀ (fuel k : ℕ) (survivors s : List EvoAgent),
      survivors.length ≤ survivorCount →
      selectSurvivorsGo survivorCount nonElites r fuel k survivors = some s →
      s.length = survivorCount ∨ nonElites = [] := by
  intro fuel
  induction fuel with
  | zero =>
    intro k survivors s hlen hs
    simp only [selectSurvivorsGo] at hs
    split at hs
    · exact absurd hs (by simp)
    · next hguard =>
      rw [not_and_or] at hguard
      rcases hguard with hg | hg
      · exact Or.inl ((Option.some.inj hs) ▸ le_antisymm hlen (not_lt.mp hg))
      · exact Or.inr (by simpa using hg)
  | succ fuel ih =>
    intro k survivors s hlen hs
    simp only [selectSurvivorsGo] at hs
    split at hs
    · next hguard =>
      rcases hts : tournamentSelect nonElites 2 (r k) with _ | selected
      · rw [hts] at hs
        exact absurd hs (by simp)
      · rw [hts] at hs
        refine ih (k + 1) _ s ?_ hs
        split
        · exact hlen
        · rw [List.length_append, List.length_singleton]
          exact Nat.succ_le_of_lt hguard.1
    · next hguard =>
      rw [not_and_or] at hguard
      rcases hguard with hg | hg
      · exact Or.inl ((Option.some.inj hs) ▸ le_antisymm hlen (not_lt.mp hg))
      · exact Or.inr (by simpa using hg)

/-- With an empty non-elite pool the loop returns its input at once. -/
theorem selectSurvivorsGo_empty_pool (survivorCount : ℕ) (r : ℕ → TDraw) :
    ∀ (fuel k : ℕ) (survivors : List EvoAgent),
      selectSurvivorsGo survivorCount [] r fuel k survivors = some survivors := by
  intro fuel k survivors
  cases fuel <;> simp [selectSurvivorsGo]

/-- The loop preserves distinctness of survivor ids: a winner is appended
only when its id is absent. -/
theorem selectSurvivorsGo_nodup (survivorCount : ℕ) (nonElites : List EvoAgent)
    (r : ℕ → TDraw) :
    ∀ (fuel k : ℕ) (survivors s : List EvoAgent),
      (survivors.map (fun a => a.id)).Nodup →
      selectSurvivorsGo survivorCount nonElites r fuel k survivors = some s →
      (s.map (fun a => a.id)).Nodup := by
  intro fuel
  induction fuel with
  | zero =>
    intro k survivors s hnd hs
    simp only [selectSurvivorsGo] at hs
    split at hs
    · exact absurd hs (by simp)
    · exact (Option.some.inj hs) ▸ hnd
  | succ fuel ih =>
    intro k survivors s hnd hs
    simp only [selectSurvivorsGo] at hs
    split at hs
    · rcases hts : tournamentSelect nonElites 2 (r k) with _ | selected
      · rw [hts] at hs
        exact absurd hs (by simp)
      · rw [hts] at hs
        refine ih (k + 1) _ s ?_ hs
        split
        · exact hnd
        · next hany =>
          rw [List.map_append, List.map_singleton]
          rw [List.nodup_append]
          refine ⟨hnd, List.nodup_singleton _, ?_⟩
          intro y hy hmem
          have hy1 : y = selected.id := by simpa using hmem
          rcases List.mem_map.mp hy with ⟨z, hz, hzy⟩
          exact hany (List.any_eq_true.mpr ⟨z, hz, by simp [hzy, hy1]⟩)
    · exact (Option.some.inj hs) ▸ hnd

/-- A finished breeding loop has produced exactly `eliminateCount` new
agents: each iteration adds at most one and the loop exits the moment the
target is reached. -/
theorem breedLoop_done_length (cfg : EvolutionConfig) (newGenIndex : ℕ)
    (survivors : List EvoAgent) (r : ℕ → BreedIterRand) (eliminateCount : ℕ) :
    ∀ (fuel k : ℕ) (acc l : List ChildAgent),
      acc.length ≤ eliminateCount →
      breedLoop cfg newGenIndex survivors r eliminateCount fuel k acc = .done l →
      l.length = eliminateCount := by
  intro fuel
  induction fuel with
  | zero =>
    intro k acc l _ hl
    exact absurd hl (by simp [breedLoop])
  | succ fuel ih =>
    intro k acc l hlen hl
    simp only [breedLoop] at hl
    split at hl
    · next hguard =>
      split at hl
      · split at hl
        · exact ih (k + 1) acc l hlen hl
        · exact absurd hl (by simp)
      · split at hl
        · exact ih (k + 1) acc l hlen hl
        · refine ih (k + 1) _ l ?_ hl
          rw [List.length_append, List.length_singleton]
          exact Nat.succ_le_of_lt hguard
    · next hguard =>
      have : acc = l := BreedResult.done.inj hl
      exact this ▸ le_antisymm hlen (not_lt.mp hguard)

/-- With at most one survivor and at least one agent to breed, every
iteration of the breeding loop hits `if (!parent2) continue;`: on an empty
survivor list `parent1` is `undefined` but the filter callback never runs,
and on a singleton list the filter yields the empty array — in both cases
`parent2` is `undefined` (the ECMA-262 sort never passes `undefined` to
the comparator, so nothing throws) and no progress is ever made. -/
theorem filter_ne_self (x : EvoAgent) :
    ((x :: ([] : List EvoAgent)).filter (fun s => s.id ≠ x.id)) = [] := by
  simp

theorem breedLoop_stuck (cfg : EvolutionConfig) (newGenIndex : ℕ)
    (survivors : List EvoAgent) (r : ℕ → BreedIterRand) (eliminateCount : ℕ)
    (hlen : survivors.length ≤ 1) (hec : 1 ≤ eliminateCount)
    (hr : ∀ k, TDrawInRange ((r k).sel1)) :
    ∀ (fuel k : ℕ),
      breedLoop cfg newGenIndex survivors r eliminateCount fuel k [] = .outOfFuel := by
  rcases survivors with _ | ⟨x, _ | ⟨y, tl⟩⟩
  · intro fuel
    induction fuel with
    | zero => intro k; rfl
    | succ fuel ih =>
      intro k
      simp only [breedLoop, tournamentSelect_nil]
      rw [if_pos (show ([] : List ChildAgent).length < eliminateCount from hec)]
      simp only [List.isEmpty_nil, if_true]
      exact ih (k + 1)
  · intro fuel
    induction fuel with
    | zero => intro k; rfl
    | succ fuel ih =>
      intro k
      simp only [breedLoop, tournamentSelect_single x ((r k).sel1) (hr k),
        filter_ne_self, tournamentSelect_nil]
      rw [if_pos (show ([] : List ChildAgent).length < eliminateCount from hec)]
      exact ih (k + 1)
  · exact absurd hlen (by simp)

/-- The completion update never turns an inactive row active. -/
theorem completeOld_status_ne_active (g : GenerationRow) (oldId : ℕ)
    (h : g.status ≠ GenerationStatus.active) :
    (if g.id = oldId then { g with status := GenerationStatus.completed } else g).status ≠
      GenerationStatus.active := by
  split
  · simp
  · exact h

/-- Marking a generation completed never creates an active row. -/
theorem completeOld_no_new_active (oldId : ℕ) :
    ∀ (l : List GenerationRow),
      l.filter (fun g => g.status = GenerationStatus.active) = [] →
      (completeOldGeneration l oldId).filter
        (fun g => g.status = GenerationStatus.active) = [] := by
  intro l
  induction l with
  | nil => intro _; rfl
  | cons g tl ih =>
    intro h
    simp only [List.filter_cons] at h
    split at h
    · exact absurd h (by simp)
    · next hng =>
      have hgs : g.status ≠ GenerationStatus.active := by simpa using hng
      simp only [completeOldGeneration, List.map_cons, List.filter_cons]
      rw [if_neg (by simpa using completeOld_status_ne_active g oldId hgs)]
      exact ih h

/-- If the only active row is the old generation, marking it completed
leaves no active row. -/
theorem completeOld_clears_active (old : GenerationRow) :
    ∀ (l : List GenerationRow),
      l.filter (fun g => g.status = GenerationStatus.active) = [old] →
      (completeOldGeneration l old.id).filter
        (fun g => g.status = GenerationStatus.active) = [] := by
  intro l
  induction l with
  | nil => intro h; exact absurd h (by simp)
  | cons g tl ih =>
    intro h
    simp only [List.filter_cons] at h
    split at h
    · next hact =>
      injection h with hg htl
      subst hg
      simp only [completeOldGeneration, List.map_cons, List.filter_cons, if_true]
      rw [if_neg (by simp)]
      exact completeOld_no_new_active g.id tl htl
    · next hng =>
      have hgs : g.status ≠ GenerationStatus.active := by simpa using hng
      simp only [completeOldGeneration, List.map_cons, List.filter_cons]
      rw [if_neg (by simpa using completeOld_status_ne_active g old.id hgs)]
      exact ih h

/-- C5 counterexample: the cycle inserts the new generation with
`status: 'active'` (line 219) before the old one is marked completed
(lines 235-244); in the store state between those two writes two
generations are active, so "exactly one active at every time" fails. -/
theorem two_active_between_generation_writes :
    countActive (insertNewGeneration genStore0 2 1) = 2 ∧
    ¬ countActive (insertNewGeneration genStore0 2 1) = 1 := by
  decide

/-- C5 amended: the new generation is inserted active *before* the old one
is completed, so between the two store writes exactly two generations are
active; once both writes land, exactly one generation — the new one — is
active again.  (The handoff is not atomic; only the final state restores
the invariant.) -/
theorem generation_handoff (store : List GenerationRow) (old : GenerationRow)
    (newId idx : ℕ)
    (hact : store.filter (fun g => g.status = GenerationStatus.active) = [old])
    (hid : old.id ≠ newId) :
    countActive (insertNewGeneration store newId idx) = 2 ∧
    (completeOldGeneration (insertNewGeneration store newId idx) old.id).filter
        (fun g => g.status = GenerationStatus.active) =
      [⟨newId, idx, GenerationStatus.active⟩] ∧
    countActive (completeOldGeneration (insertNewGeneration store newId idx) old.id) = 1 := by
  have hmid : countActive (insertNewGeneration store newId idx) = 2 := by
    unfold countActive insertNewGeneration
    rw [List.filter_append, hact]
    simp
  have hfin : (completeOldGeneration (insertNewGeneration store newId idx) old.id).filter
      (fun g => g.status = GenerationStatus.active) =
      [⟨newId, idx, GenerationStatus.active⟩] := by
    unfold insertNewGeneration completeOldGeneration
    rw [List.map_append, List.filter_append]
    have h1 : (store.map (fun g =>
        if g.id = old.id then { g with status := GenerationStatus.completed } else g)).filter
        (fun g => g.status = GenerationStatus.active) = [] :=
      completeOld_clears_active old store hact
    rw [show (List.map (fun g =>
        if g.id = old.id then { g with status := GenerationStatus.completed } else g)
        store) = completeOldGeneration store old.id from rfl] at *
    rw [h1, List.nil_append]
    have hne : (⟨newId, idx, GenerationStatus.active⟩ : GenerationRow).id ≠ old.id :=
      fun hcon => hid hcon.symm
    simp only [List.map_cons, List.map_nil, List.filter_cons]
    rw [if_neg (Ne.symm hid)]
    simp
  exact ⟨hmid, hfin, by rw [countActive, hfin]; rfl⟩

/-- Witness for C5's amended theorem at a concrete store with one active
generation. -/
theorem generation_handoff_witness :
    (genStore0.filter (fun g => g.status = GenerationStatus.active) =
      [⟨1, 0, GenerationStatus.active⟩]) ∧
    ((⟨1, 0, GenerationStatus.active⟩ : GenerationRow).id ≠ 2) ∧
    (countActive (insertNewGeneration genStore0 2 1) = 2 ∧
     (completeOldGeneration (insertNewGeneration genStore0 2 1)
         (⟨1, 0, GenerationStatus.active⟩ : GenerationRow).id).filter
         (fun g => g.status = GenerationStatus.active) =
       [⟨2, 1, GenerationStatus.active⟩] ∧
     countActive (completeOldGeneration (insertNewGeneration genStore0 2 1)
         (⟨1, 0, GenerationStatus.active⟩ : GenerationRow).id) = 1) :=
  ⟨by decide, by decide,
    generation_handoff genStore0 ⟨1, 0, GenerationStatus.active⟩ 2 1 (by decide) (by decide)⟩

/-- C10 counterexample: with a single survivor and one agent to breed, the
breeding loop neither throws nor completes — `tournamentSelect` on the
empty filtered array returns `undefined` without the sort comparator ever
touching `undefined` (ECMA-262 moves such entries to the end without
calling the comparator), and `if (!parent2) continue;` spins forever. -/
theorem degenerate_breeding_never_throws :
    ¬ breedLoopEverThrows defaultConfig 1 oneSurvivor breedTestR 1 ∧
    ¬ breedLoopEverCompletes defaultConfig 1 oneSurvivor breedTestR 1 ∧
    breedLoop defaultConfig 1 oneSurvivor breedTestR 1 100 0 [] = BreedResult.outOfFuel := by
  have hstuck := breedLoop_stuck defaultConfig 1 oneSurvivor breedTestR 1
    (by decide) (le_refl 1) (fun k i => ⟨le_refl 0, show (0:ℚ) < 1 by decide⟩)
  refine ⟨?_, ?_, hstuck 100 0⟩
  · rintro ⟨fuel, hthrow⟩
    rw [hstuck fuel 0] at hthrow
    exact absurd hthrow (by simp)
  · rintro ⟨fuel, l, hdone⟩
    rw [hstuck fuel 0] at hdone
    exact absurd hdone (by simp)

/-- C10 amended: when the survivor set has at most one agent and at least
one agent must be bred, `runEvolutionCycle`'s breeding loop makes no
progress in any iteration — `tournamentSelect` on the empty candidate
array returns `undefined` (the sort comparator is never called on
`undefined` entries, so no exception is raised) and `if (!parent2)
continue;` repeats forever: for every fuel allowance the loop is still
running, so the cycle neither completes, nor returns a no-op result, nor
throws. -/
theorem degenerate_breeding_loops_forever (cfg : EvolutionConfig) (newGenIndex : ℕ)
    (survivors : List EvoAgent) (r : ℕ → BreedIterRand) (eliminateCount : ℕ)
    (hlen : survivors.length ≤ 1) (hec : 1 ≤ eliminateCount)
    (hr : ∀ k, TDrawInRange ((r k).sel1)) :
    ∀ (fuel k : ℕ),
      breedLoop cfg newGenIndex survivors r eliminateCount fuel k [] =
        BreedResult.outOfFuel :=
  breedLoop_stuck cfg newGenIndex survivors r eliminateCount hlen hec hr

/-- Witness for C10's amended theorem at the concrete degenerate input. -/
theorem degenerate_breeding_loops_forever_witness :
    oneSurvivor.length ≤ 1 ∧ 1 ≤ 1 ∧
    breedLoop defaultConfig 1 oneSurvivor breedTestR 1 5 0 [] = BreedResult.outOfFuel :=
  ⟨by decide, le_refl 1,
    degenerate_breeding_loops_forever defaultConfig 1 oneSurvivor breedTestR 1
      (by decide) (le_refl 1) (fun k i => ⟨le_refl 0, show (0:ℚ) < 1 by decide⟩) 5 0⟩

/-- A completed cycle decomposes into a successful survivor selection and
a finished breeding loop, and its data is the assembled `mkCycleData`. -/
theorem runModel_ok_elim (cfg : EvolutionConfig) (score : EvoAgent → ℚ)
    (genStore : List GenerationRow) (newGenId : ℕ) (agents : List EvoAgent)
    (selR : ℕ → TDraw) (brR : ℕ → BreedIterRand) (selFuel breedFuel : ℕ)
    (hok : (runEvolutionCycleModel cfg score genStore newGenId agents selR brR selFuel
        breedFuel).isOk = true) :
    ∃ survivors newAgents,
      selectSurvivorsGo
          ((scoredSortedOf score agents).length -
            eliminateCountOf cfg (scoredSortedOf score agents).length)
          ((scoredSortedOf score agents).drop
            (eliteCountOf cfg (scoredSortedOf score agents).length))
          selR selFuel 0
          ((scoredSortedOf score agents).take
            (eliteCountOf cfg (scoredSortedOf score agents).length)) = some survivors ∧
      breedLoop cfg (currentGenIndexOf genStore + 1) survivors brR
          (eliminateCountOf cfg (scoredSortedOf score agents).length) breedFuel 0 [] =
        .done newAgents ∧
      runEvolutionCycleModel cfg score genStore newGenId agents selR brR selFuel breedFuel =
        .ok (mkCycleData cfg score genStore newGenId agents survivors newAgents) := by
  simp only [runEvolutionCycleModel] at hok ⊢
  split at hok
  · exact absurd hok (by simp [CycleOutcome.isOk])
  · next hA =>
    split at hok
    · exact absurd hok (by simp [CycleOutcome.isOk])
    · next survivors heq₁ =>
      split at hok
      · exact absurd hok (by simp [CycleOutcome.isOk])
      · exact absurd hok (by simp [CycleOutcome.isOk])
      · next newAgents heq₂ =>
        exact ⟨survivors, newAgents, heq₁, heq₂, by rw [if_neg hA]⟩

/-- The scored, sorted list has one entry per fetched agent. -/
theorem scoredSortedOf_length (score : EvoAgent → ℚ) (agents : List EvoAgent) :
    (scoredSortedOf score agents).length = agents.length := by
  unfold scoredSortedOf
  rw [(List.perm_insertionSort _ _).length_eq, List.length_map]

/-- Rescoring does not change ids, and sorting permutes, so the sorted
list's ids are exactly the fetched agents' ids up to permutation. -/
theorem scoredSortedOf_ids_nodup (score : EvoAgent → ℚ) (agents : List EvoAgent)
    (h : (agents.map (fun a => a.id)).Nodup) :
    ((scoredSortedOf score agents).map (fun a => a.id)).Nodup := by
  unfold scoredSortedOf
  have hperm := (List.perm_insertionSort
      (fun a b : EvoAgent => b.fitness_score ≤ a.fitness_score)
      (agents.map (fun a => { a with fitness_score := score a }))).map
    (fun a : EvoAgent => a.id)
  refine hperm.nodup_iff.mpr ?_
  have hmap : ((agents.map (fun a => { a with fitness_score := score a })).map
      (fun a => a.id)) = agents.map (fun a => a.id) := by
    rw [List.map_map]
    rfl
  rw [hmap]
  exact h

/-- Floor arithmetic: with nonnegative fractions summing to at most one,
the elite and elimination counts fit inside the population. -/
theorem counts_le (cfg : EvolutionConfig) (N : ℕ)
    (hef : 0 ≤ cfg.elitePercentage) (helf : 0 ≤ cfg.eliminationPercentage)
    (hsum : cfg.elitePercentage + cfg.eliminationPercentage ≤ 1) :
    eliteCountOf cfg N + eliminateCountOf cfg N ≤ N := by
  unfold eliteCountOf eliminateCountOf
  have ha : (0 : ℤ) ≤ ⌊(N : ℚ) * cfg.elitePercentage⌋ :=
    Int.floor_nonneg.mpr (mul_nonneg (Nat.cast_nonneg N) hef)
  have hb : (0 : ℤ) ≤ ⌊(N : ℚ) * cfg.eliminationPercentage⌋ :=
    Int.floor_nonneg.mpr (mul_nonneg (Nat.cast_nonneg N) helf)
  have hsumZ : ⌊(N : ℚ) * cfg.elitePercentage⌋ + ⌊(N : ℚ) * cfg.eliminationPercentage⌋ ≤
      (N : ℤ) := by
    have h1 : ((⌊(N : ℚ) * cfg.elitePercentage⌋ : ℤ) : ℚ) ≤ (N : ℚ) * cfg.elitePercentage :=
      Int.floor_le _
    have h2 : ((⌊(N : ℚ) * cfg.eliminationPercentage⌋ : ℤ) : ℚ) ≤
        (N : ℚ) * cfg.eliminationPercentage := Int.floor_le _
    have h3 : (N : ℚ) * cfg.elitePercentage + (N : ℚ) * cfg.eliminationPercentage ≤ N := by
      have := mul_le_mul_of_nonneg_left hsum (Nat.cast_nonneg (α := ℚ) N)
      rw [mul_add] at this
      simpa using this
    have : ((⌊(N : ℚ) * cfg.elitePercentage⌋ +
        ⌊(N : ℚ) * cfg.eliminationPercentage⌋ : ℤ) : ℚ) ≤ (N : ℚ) := by
      push_cast
      linarith
    exact_mod_cast this
  calc (⌊(N : ℚ) * cfg.elitePercentage⌋).toNat +
        (⌊(N : ℚ) * cfg.eliminationPercentage⌋).toNat
      = (⌊(N : ℚ) * cfg.elitePercentage⌋ +
          ⌊(N : ℚ) * cfg.eliminationPercentage⌋).toNat := (Int.toNat_add ha hb).symm
    _ ≤ ((N : ℤ)).toNat := Int.toNat_le_toNat hsumZ
    _ = N := Int.toNat_natCast N

/-- Filtering an agent list by membership of its id in a second id-distinct
list that it covers selects exactly as many entries as the second list. -/
theorem filter_by_ids_length (sorted survivors : List EvoAgent)
    (hL : (sorted.map (fun a => a.id)).Nodup)
    (hS : (survivors.map (fun a => a.id)).Nodup)
    (hsub : ∀ x ∈ survivors, x ∈ sorted) :
    (sorted.filter (fun a => survivors.any (fun s => s.id = a.id))).length =
      survivors.length := by
  have hfac : ∀ (l : List EvoAgent),
      ((l.filter (fun a => survivors.any (fun s => s.id = a.id))).map (fun a => a.id)) =
        (l.map (fun a => a.id)).filter (fun y => survivors.any (fun s => s.id = y)) := by
    intro l
    induction l with
    | nil => rfl
    | cons a tl ih =>
      simp only [List.filter_cons, List.map_cons]
      by_cases hc : (survivors.any (fun s => s.id = a.id)) = true
      · rw [if_pos hc, if_pos hc, List.map_cons, ih]
      · rw [if_neg hc, if_neg hc, ih]
  have hlen : (sorted.filter (fun a => survivors.any (fun s => s.id = a.id))).length =
      ((sorted.map (fun a => a.id)).filter
        (fun y => survivors.any (fun s => s.id = y))).length := by
    rw [← hfac sorted, List.length_map]
  rw [hlen]
  have hQ : ∀ y, ((survivors.any (fun s => s.id = y)) = true) ↔
      y ∈ survivors.map (fun a => a.id) := by
    intro y
    rw [List.any_eq_true]
    constructor
    · rintro ⟨s, hs, hsy⟩
      exact List.mem_map.mpr ⟨s, hs, by simpa using hsy⟩
    · rintro hy
      rcases List.mem_map.mp hy with ⟨s, hs, hsy⟩
      exact ⟨s, hs, by simpa using hsy⟩
  have hfilterNodup : ((sorted.map (fun a => a.id)).filter
      (fun y => survivors.any (fun s => s.id = y))).Nodup := hL.filter _
  have hsetEq : ((sorted.map (fun a => a.id)).filter
      (fun y => survivors.any (fun s => s.id = y))).toFinset =
      (survivors.map (fun a => a.id)).toFinset := by
    ext y
    simp only [List.mem_toFinset, List.mem_filter]
    constructor
    · rintro ⟨_, hy⟩
      exact (hQ y).mp hy
    · intro hy
      refine ⟨?_, (hQ y).mpr hy⟩
      rcases List.mem_map.mp hy with ⟨s, hs, hsy⟩
      exact List.mem_map.mpr ⟨s, hsub s hs, hsy⟩
  calc ((sorted.map (fun a => a.id)).filter
        (fun y => survivors.any (fun s => s.id = y))).length
      = ((sorted.map (fun a => a.id)).filter
          (fun y => survivors.any (fun s => s.id = y))).toFinset.card :=
        (List.toFinset_card_of_nodup hfilterNodup).symm
    _ = (survivors.map (fun a => a.id)).toFinset.card := by rw [hsetEq]
    _ = (survivors.map (fun a => a.id)).length := List.toFinset_card_of_nodup hS
    _ = survivors.length := List.length_map _ _

/-- The eliminated set — sorted agents whose id is absent from the
survivor set — has exactly `N - |survivors|` members. -/
theorem eliminated_length (sorted survivors : List EvoAgent)
    (hL : (sorted.map (fun a => a.id)).Nodup)
    (hS : (survivors.map (fun a => a.id)).Nodup)
    (hsub : ∀ x ∈ survivors, x ∈ sorted) :
    (sorted.filter (fun a => !(survivors.any (fun s => s.id = a.id)))).length =
      sorted.length - survivors.length := by
  have hpart := List.length_eq_length_filter_add
    (l := sorted) (fun a => survivors.any (fun s => s.id = a.id))
  have hmem := filter_by_ids_length sorted survivors hL hS hsub
  omega

/-- C8: after a completed evolution cycle, every elite agent — one of the
top `floor(N*eliteFraction)` agents by fitness after rescoring — is a
member of the survivor set, is absent by id from the eliminated set (so it
is never marked eliminated), and appears in the survivor update with its
generation index reassigned to the new generation's index. -/
theorem elites_always_survive (cfg : EvolutionConfig) (score : EvoAgent → ℚ)
    (genStore : List GenerationRow) (newGenId : ℕ) (agents : List EvoAgent)
    (selR : ℕ → TDraw) (brR : ℕ → BreedIterRand) (selFuel breedFuel : ℕ)
    (hok : (runEvolutionCycleModel cfg score genStore newGenId agents selR brR selFuel
        breedFuel).isOk = true) :
    ∃ d, (runEvolutionCycleModel cfg score genStore newGenId agents selR brR selFuel
        breedFuel).data? = some d ∧
      ∀ a ∈ d.elites,
        a ∈ d.survivors ∧
        (∀ b ∈ d.eliminated, b.id ≠ a.id) ∧
        (∃ a' ∈ d.updatedSurvivors, a'.id = a.id ∧ a'.generation_index = d.newGenIndex) := by
  obtain ⟨survivors, newAgents, heqSel, heqBreed, hmodel⟩ :=
    runModel_ok_elim cfg score genStore newGenId agents selR brR selFuel breedFuel hok
  refine ⟨mkCycleData cfg score genStore newGenId agents survivors newAgents,
    by rw [hmodel]; rfl, ?_⟩
  intro a ha
  simp only [mkCycleData] at ha ⊢
  have haSurv : a ∈ survivors :=
    selectSurvivorsGo_sub _ _ selR selFuel 0 _ survivors heqSel a ha
  refine ⟨haSurv, ?_, ?_⟩
  · intro b hb hcon
    obtain ⟨_, hpred⟩ := List.mem_filter.mp hb
    have hany : (survivors.any (fun s => s.id = b.id)) = true :=
      List.any_eq_true.mpr ⟨a, haSurv, by simp [hcon]⟩
    rw [hany] at hpred
    exact absurd hpred (by simp)
  · exact ⟨{ a with generation_index := currentGenIndexOf genStore + 1 },
      List.mem_map.mpr ⟨a, haSurv, rfl⟩, rfl, rfl⟩

/-- Witness for C8 at the concrete ten-agent run. -/
theorem elites_always_survive_witness :
    (runEvolutionCycleModel defaultConfig (fun a => a.fitness_score) genStore0 2
        tenAgents selTestR breedTestR 10 5).isOk = true ∧
    (∃ d, (runEvolutionCycleModel defaultConfig (fun a => a.fitness_score) genStore0 2
        tenAgents selTestR breedTestR 10 5).data? = some d ∧
      ∀ a ∈ d.elites,
        a ∈ d.survivors ∧
        (∀ b ∈ d.eliminated, b.id ≠ a.id) ∧
        (∃ a' ∈ d.updatedSurvivors, a'.id = a.id ∧ a'.generation_index = d.newGenIndex)) :=
  ⟨by with_unfolding_all decide,
    elites_always_survive defaultConfig (fun a => a.fitness_score) genStore0 2
      tenAgents selTestR breedTestR 10 5 (by with_unfolding_all decide)⟩

/-- C2: after a completed evolution cycle over N agents with status in
{running, paused} and sane fractions, `eliteCount = floor(N*eliteFraction)`,
`eliminateCount = floor(N*eliminationFraction)`,
`survivorCount = N - eliminateCount`, `survivorCount + eliminateCount = N`,
the survivor set reaches `survivorCount`, exactly `eliminateCount`
eliminated agents are marked, and exactly `eliminateCount` new agents are
bred and inserted, restoring the population to N. -/
theorem evolution_cycle_counts (cfg : EvolutionConfig) (score : EvoAgent → ℚ)
    (genStore : List GenerationRow) (newGenId : ℕ) (agents : List EvoAgent)
    (selR : ℕ → TDraw) (brR : ℕ → BreedIterRand) (selFuel breedFuel : ℕ)
    (hef : 0 ≤ cfg.elitePercentage)
    (helf : 0 ≤ cfg.eliminationPercentage)
    (hsum : cfg.elitePercentage + cfg.eliminationPercentage ≤ 1)
    (hids : (agents.map (fun a => a.id)).Nodup)
    (hok : (runEvolutionCycleModel cfg score genStore newGenId agents selR brR selFuel
        breedFuel).isOk = true) :
    ∃ d, (runEvolutionCycleModel cfg score genStore newGenId agents selR brR selFuel
        breedFuel).data? = some d ∧
      d.eliteCount = (⌊(agents.length : ℚ) * cfg.elitePercentage⌋).toNat ∧
      d.eliminateCount = (⌊(agents.length : ℚ) * cfg.eliminationPercentage⌋).toNat ∧
      d.survivorCount = agents.length - d.eliminateCount ∧
      d.survivorCount + d.eliminateCount = agents.length ∧
      d.survivors.length = d.survivorCount ∧
      d.newAgents.length = d.eliminateCount ∧
      d.survivors.length + d.newAgents.length = agents.length ∧
      d.eliminated.length = d.eliminateCount := by
  obtain ⟨survivors, newAgents, heqSel, heqBreed, hmodel⟩ :=
    runModel_ok_elim cfg score genStore newGenId agents selR brR selFuel breedFuel hok
  refine ⟨mkCycleData cfg score genStore newGenId agents survivors newAgents,
    by rw [hmodel]; rfl, ?_⟩
  simp only [mkCycleData]
  have hMN : (scoredSortedOf score agents).length = agents.length :=
    scoredSortedOf_length score agents
  have hcnt : eliteCountOf cfg (scoredSortedOf score agents).length +
      eliminateCountOf cfg (scoredSortedOf score agents).length ≤
      (scoredSortedOf score agents).length :=
    counts_le cfg _ hef helf hsum
  have hec_le : eliteCountOf cfg (scoredSortedOf score agents).length ≤
      (scoredSortedOf score agents).length := le_trans (Nat.le_add_right _ _) hcnt
  have hel_le : eliminateCountOf cfg (scoredSortedOf score agents).length ≤
      (scoredSortedOf score agents).length := le_trans (Nat.le_add_left _ _) hcnt
  have helitesLen : ((scoredSortedOf score agents).take
      (eliteCountOf cfg (scoredSortedOf score agents).length)).length =
      eliteCountOf cfg (scoredSortedOf score agents).length := by
    rw [List.length_take]
    exact min_eq_left hec_le
  have hsurvLen : survivors.length = (scoredSortedOf score agents).length -
      eliminateCountOf cfg (scoredSortedOf score agents).length := by
    have hle : ((scoredSortedOf score agents).take
        (eliteCountOf cfg (scoredSortedOf score agents).length)).length ≤
        (scoredSortedOf score agents).length -
          eliminateCountOf cfg (scoredSortedOf score agents).length := by
      rw [helitesLen]
      exact Nat.le_sub_of_add_le hcnt
    rcases selectSurvivorsGo_length _ _ selR selFuel 0 _ survivors hle heqSel with h | hne
    · exact h
    · have hMec : (scoredSortedOf score agents).length ≤
          eliteCountOf cfg (scoredSortedOf score agents).length :=
        List.drop_eq_nil_iff.mp hne
      have heqS : survivors = (scoredSortedOf score agents).take
          (eliteCountOf cfg (scoredSortedOf score agents).length) := by
        rw [hne] at heqSel
        have hpool := selectSurvivorsGo_empty_pool
          ((scoredSortedOf score agents).length -
            eliminateCountOf cfg (scoredSortedOf score agents).length) selR selFuel 0
          ((scoredSortedOf score agents).take
            (eliteCountOf cfg (scoredSortedOf score agents).length))
        exact (Option.some.inj (hpool ▸ heqSel)).symm
      rw [heqS, helitesLen]
      omega
  have hnewLen : newAgents.length =
      eliminateCountOf cfg (scoredSortedOf score agents).length :=
    breedLoop_done_length cfg (currentGenIndexOf genStore + 1) survivors brR _ breedFuel 0
      [] newAgents (Nat.zero_le _) heqBreed
  have hLnodup := scoredSortedOf_ids_nodup score agents hids
  have hSnodup : (survivors.map (fun a => a.id)).Nodup := by
    refine selectSurvivorsGo_nodup _ _ selR selFuel 0 _ survivors ?_ heqSel
    rw [List.map_take]
    exact List.Nodup.sublist (List.take_sublist _ _) hLnodup
  have hsub : ∀ x ∈ survivors, x ∈ scoredSortedOf score agents := by
    intro x hx
    rcases selectSurvivorsGo_mem _ _ selR selFuel 0 _ survivors heqSel x hx with h | h
    · exact List.take_subset _ _ h
    · exact List.drop_subset _ _ h
  have helim := eliminated_length (scoredSortedOf score agents) survivors hLnodup
    hSnodup hsub
  refine ⟨?_, ?_, ?_, ?_, ?_, ?_, ?_, ?_⟩
  · unfold eliteCountOf
    rw [hMN]
  · unfold eliminateCountOf
    rw [hMN]
  · rw [hMN]
  · rw [Nat.sub_add_cancel hel_le, hMN]
  · exact hsurvLen
  · exact hnewLen
  · omega
  · rw [helim]
    omega

/-- Witness for C2 at the concrete run matching the spec's scenario:
N=10, eliteFraction=0.2, eliminationFraction=0.3 give eliteCount=2,
eliminateCount=3, survivorCount=7 and exactly 3 bred agents. -/
theorem evolution_cycle_counts_witness :
    (0 : ℚ) ≤ defaultConfig.elitePercentage ∧
    (0 : ℚ) ≤ defaultConfig.eliminationPercentage ∧
    defaultConfig.elitePercentage + defaultConfig.eliminationPercentage ≤ 1 ∧
    (tenAgents.map (fun a => a.id)).Nodup ∧
    (runEvolutionCycleModel defaultConfig (fun a => a.fitness_score) genStore0 2
        tenAgents selTestR breedTestR 10 5).isOk = true ∧
    ((runEvolutionCycleModel defaultConfig (fun a => a.fitness_score) genStore0 2
        tenAgents selTestR breedTestR 10 5).data?.map
      (fun d => (d.eliteCount, d.eliminateCount, d.survivorCount,
        d.survivors.length, d.newAgents.length, d.eliminated.length))) =
      some (2, 3, 7, 7, 3, 3) ∧
    (∃ d, (runEvolutionCycleModel defaultConfig (fun a => a.fitness_score) genStore0 2
        tenAgents selTestR breedTestR 10 5).data? = some d ∧
      d.eliteCount = (⌊(tenAgents.length : ℚ) * defaultConfig.elitePercentage⌋).toNat ∧
      d.eliminateCount =
        (⌊(tenAgents.length : ℚ) * defaultConfig.eliminationPercentage⌋).toNat ∧
      d.survivorCount = tenAgents.length - d.eliminateCount ∧
      d.survivorCount + d.eliminateCount = tenAgents.length ∧
      d.survivors.length = d.survivorCount ∧
      d.newAgents.length = d.eliminateCount ∧
      d.survivors.length + d.newAgents.length = tenAgents.length ∧
      d.eliminated.length = d.eliminateCount) :=
  ⟨by with_unfolding_all decide, by with_unfolding_all decide,
   by with_unfolding_all decide, by decide,
   by with_unfolding_all decide, by with_unfolding_all decide,
   evolution_cycle_counts defaultConfig (fun a => a.fitness_score) genStore0 2
     tenAgents selTestR breedTestR 10 5
     (by with_unfolding_all decide) (by with_unfolding_all decide)
     (by with_unfolding_all decide) (by decide) (by with_unfolding_all decide)⟩

end EvoSwarm
